import Mathlib

/-!
Verification of the IRC-style chat server (serverlib.py, message.py,
status.py) against its natural-language specification.

Python strings are modelled as `List Char`, Python dicts as insertion-ordered
association lists (`List (key × value)`), peer addresses as `Nat` (the code
keys `conns` by `hash(addr)`; the hash is modelled as the identity on the
abstract address), and Python `None` / raised exceptions as `Option`.
-/

namespace IRC

/-- Python strings are modelled as lists of characters. -/
abbrev Str := List Char

/-- Python slice `s[a:b]` (non-negative indices, clamping at both ends). -/
def pySlice (s : Str) (a b : Nat) : Str := (s.drop a).take (b - a)

/-- Python `str.split(sep)` for a one-character separator: always returns
one more piece than the number of separator occurrences, keeping empties. -/
def splitCh (sep : Char) : Str → List Str
  | [] => [[]]
  | c :: rest =>
    match splitCh sep rest with
    | [] => [[]]
    | p :: ps => if c = sep then [] :: p :: ps else (c :: p) :: ps

/-- Python `sep.join(pieces)` for a one-character separator. -/
def joinCh (sep : Char) : List Str → Str
  | [] => []
  | [s] => s
  | s :: rest => s ++ sep :: joinCh sep rest

/-- The decimal digit characters used by Python `str(int)`. -/
def digitChar : Nat → Char
  | 0 => '0'
  | 1 => '1'
  | 2 => '2'
  | 3 => '3'
  | 4 => '4'
  | 5 => '5'
  | 6 => '6'
  | 7 => '7'
  | 8 => '8'
  | 9 => '9'
  | _ => '*'

/-- Numeric value of a digit character. -/
def charDigit (c : Char) : Nat := c.toNat - 48

/-- The ASCII whitespace characters `str.strip()` removes. -/
def pyWhitespace (c : Char) : Bool :=
  c = ' ' || c = '\t' || c = '\n' || c = '\r' || c.toNat = 11 || c.toNat = 12

/-- `str.strip()`: drop whitespace from both ends. -/
def pyStrip (s : Str) : Str :=
  ((s.dropWhile pyWhitespace).reverse.dropWhile pyWhitespace).reverse

/-- The optional leading sign of an integer literal: `true` marks a minus
sign; the remainder follows. -/
def pySign (s : Str) : Bool × Str :=
  match s with
  | [] => (false, [])
  | c :: t => if c = '+' then (false, t) else if c = '-' then (true, t) else (false, s)

/-- Python `int(s)` over ASCII strings: surrounding whitespace is stripped,
one optional sign is consumed, and the rest must be digit groups joined by
single underscores; `none` models the `ValueError` on any other shape.
(CPython additionally accepts non-ASCII digit characters, outside the
alphabet modelled here.) -/
def pyInt (s : Str) : Option Int :=
  let signed := pySign (pyStrip s)
  let parts := splitCh '_' signed.2
  if parts.all (fun p => !p.isEmpty && p.all Char.isDigit) then
    let val : Nat := parts.flatten.foldl (fun a c => 10 * a + charDigit c) 0
    some (if signed.1 then -(val : Int) else (val : Int))
  else none

/-- Python `s[i:]` for a possibly negative integer start index: a negative
start counts back from the end of the string, clamping at zero. -/
def pyDropInt (s : Str) (i : Int) : Str :=
  if 0 ≤ i then s.drop i.toNat
  else s.drop (s.length - (-i).toNat)

/-- Fuelled digit expansion; the fuel always suffices because dividing by
ten strictly shrinks a positive number. -/
def natToStrAux : Nat → Nat → Str
  | 0, _ => []
  | fuel + 1, n =>
    if n < 10 then [digitChar n]
    else natToStrAux fuel (n / 10) ++ [digitChar (n % 10)]

/-- Python `str(n)` for a natural number. -/
def natToStr (n : Nat) : Str := natToStrAux (n + 1) n

/-- Python `str(i)` for an integer. -/
def intToStr (i : Int) : Str :=
  if i < 0 then '-' :: natToStr (-i).toNat else natToStr i.toNat

/-- The tagged status variants of status.py: `Status`, `RegistrationStatus`,
`JoinStatus`, `MessageStatus`, `DisconnectStatus`, `LeaveStatus`,
`RoomUserListStatus`, `ListRoomStatus`.  Python sets carried by the last two
variants are modelled as lists of their elements in iteration order. -/
inductive Status where
  | base (code : Int) (message : Str)
  | registration (code : Int) (message : Str) (username : Str)
  | join (code : Int) (message : Str) (roomName : Str) (username : Str) (is_creation : Bool)
  | msg (code : Int) (message : Str) (to_room : Bool) (sender : Str) (room : Str)
        (username : Str) (data : Str)
  | disconnect (code : Int) (message : Str) (username : Str) (room : Str) (addr : Option Str)
  | leave (code : Int) (message : Str) (room : Str) (username : Str)
  | roomUserList (code : Int) (message : Str) (room : Str) (userlist : List Str)
  | listRoom (code : Int) (message : Str) (rooms : List Str)
  deriving DecidableEq, Repr

/-- The `code` attribute shared by all status variants (a Python `int`,
since the decoders build it with `int(bytes[:3])`). -/
def Status.code : Status → Int
  | .base c _ => c
  | .registration c _ _ => c
  | .join c _ _ _ _ => c
  | .msg c _ _ _ _ _ _ => c
  | .disconnect c _ _ _ _ => c
  | .leave c _ _ _ => c
  | .roomUserList c _ _ _ => c
  | .listRoom c _ _ => c

/-- The `message` attribute shared by all status variants. -/
def Status.messageText : Status → Str
  | .base _ m => m
  | .registration _ m _ => m
  | .join _ m _ _ _ => m
  | .msg _ m _ _ _ _ _ => m
  | .disconnect _ m _ _ _ => m
  | .leave _ m _ _ => m
  | .roomUserList _ m _ _ => m
  | .listRoom _ m _ => m

/-- A user session (serverlib.py `User`): name, peer address, the mailbox
queue of pending statuses, and the disconnected latch.  The connection
socket carried by the Python object has no observable semantics here. -/
structure User where
  name : Str
  addr : Nat
  msg_queue : List Status
  is_disconnected : Bool
  deriving DecidableEq, Repr

/-- `User.__init__`: fresh session with an empty mailbox. -/
def mkUser (username : Str) (addr : Nat) : User :=
  ⟨username, addr, [], false⟩

/-- Outcome of `User.get_messages`: either the call would block on the
condition variable, or it returns the Python `None` sentinel, or a batch. -/
inductive PopResult where
  | blocked
  | sentinel
  | msgs (l : List Status)
  deriving DecidableEq, Repr

/-- `User.get_messages`: while the queue is empty and the latch is unset the
call waits (modelled as `blocked`); once past the wait, the latch is tested
first — if it is set the call returns `None` (the sentinel) even when
messages are queued, otherwise it drains the queue. -/
def User.get_messages (u : User) : PopResult × User :=
  if u.msg_queue.length ≤ 0 ∧ u.is_disconnected = false then (.blocked, u)
  else if u.is_disconnected = false then (.msgs u.msg_queue, { u with msg_queue := [] })
  else (.sentinel, u)

/-- `User.enqueue_message`: append one status to the mailbox. -/
def User.enqueue_message (u : User) (m : Status) : User :=
  { u with msg_queue := u.msg_queue ++ [m] }

/-- `User.disconnection_release`: set the disconnected latch. -/
def User.disconnection_release (u : User) : User :=
  { u with is_disconnected := true }

/-- A room (serverlib.py `Room`): the member dict is modelled by the list of
its keys (member names) in insertion order. -/
structure Room where
  name : Str
  creator : Str
  members : List Str
  deriving DecidableEq, Repr

/-- `Room.join`: dict assignment `users[name] = user` — inserts the key if
absent, otherwise leaves the key set unchanged. -/
def Room.join (r : Room) (u : Str) : Room :=
  if u ∈ r.members then r else { r with members := r.members ++ [u] }

/-- `Room.leave`: delete the key if present, reporting whether it was. -/
def Room.leave (r : Room) (u : Str) : Bool × Room :=
  if u ∈ r.members then (true, { r with members := r.members.erase u })
  else (false, r)

/-! Association lists with Python-dict semantics: lookup finds the first
matching key, assignment replaces in place or appends, deletion removes
the entry. -/

/-- Dict lookup `l[k]`, `none` when the key is absent. -/
def alookup {α β : Type} [DecidableEq α] (l : List (α × β)) (k : α) : Option β :=
  match l with
  | [] => none
  | (k2, v) :: t => if k2 = k then some v else alookup t k

/-- Dict assignment `l[k] = v`: replace in place, or append a fresh key. -/
def dinsert {α β : Type} [DecidableEq α] (k : α) (v : β) : List (α × β) → List (α × β)
  | [] => [(k, v)]
  | (k2, v2) :: t => if k2 = k then (k, v) :: t else (k2, v2) :: dinsert k v t

/-- Dict deletion `del l[k]` (no-op when the key is absent). -/
def derase {α β : Type} [DecidableEq α] (k : α) : List (α × β) → List (α × β)
  | [] => []
  | (k2, v2) :: t => if k2 = k then t else (k2, v2) :: derase k t

/-- The key list of an association list. -/
def akeys {α β : Type} (l : List (α × β)) : List α := l.map Prod.fst

/-- The shared registry (serverlib.py `Table`): room dict, user dict and the
connection dict keyed by the peer-address fingerprint. -/
structure Table where
  rooms : List (Str × Room)
  users : List (Str × User)
  conns : List (Nat × Str)
  deriving DecidableEq, Repr

/-- `Table.__valid_registration`, the scan over the users dict: the first
user whose address matches yields 401, a first user whose name matches
(without an address match) yields 402; a clean scan yields 200. -/
def regScan (username : Str) (addr : Nat) : List (Str × User) → Status
  | [] => .registration 200 "success".toList username
  | (_, u) :: rest =>
    if u.addr = addr then .registration 401 "Duplicated registration".toList username
    else if u.name = username then .registration 402 "Username existed".toList username
    else regScan username addr rest

/-- Name-format check shared by registration and room creation: exactly 20
characters, none of which is one of the three reserved delimiters. -/
def validNameFormat (s : Str) : Bool :=
  s.length = 20 && s.all (fun c => !(c = '$' || c = '#' || c = '&'))

/-- `Table.__valid_registration`. -/
def valid_registration (t : Table) (username : Str) (addr : Nat) : Status :=
  if validNameFormat username = false then .base 403 "Invalid username format".toList
  else regScan username addr t.users

/-- `Table.user_registration`: on any code other than 401/402/403 a fresh
session is added to `users` and the address fingerprint to `conns`. -/
def user_registration (t : Table) (username : Str) (addr : Nat) : Status × Table :=
  let status := valid_registration t username addr
  if status.code = 401 ∨ status.code = 402 ∨ status.code = 403 then (status, t)
  else
    (status, { t with users := dinsert username (mkUser username addr) t.users,
                      conns := dinsert addr username t.conns })

/-- `Table.__clear_disconnected_user`: if the user is unknown, 461 and no
rooms to notify; otherwise remove the user from every room's member dict
and collect the names of the rooms that contained them. -/
def clearDisconnectedUser (t : Table) (username : Str) :
    (Option (List Str) × Status) × Table :=
  if (alookup t.users username).isSome = false then
    ((none, .disconnect 461 "Disconnect user not found".toList username [] none), t)
  else
    ((some ((t.rooms.filter (fun p => decide (username ∈ p.2.members))).map Prod.fst),
      .base 200 "success".toList),
     { t with rooms := t.rooms.map (fun p => (p.1, (p.2.leave username).2)) })

/-- `Table.user_disconnection`: clear the user from all rooms, then (on 200)
fire the mailbox latch of the session being removed and delete it from
`users`.  The `conns` entry is deliberately not touched. -/
def user_disconnection (t : Table) (username : Str) :
    (Option (List Str) × Status) × Table :=
  match clearDisconnectedUser t username with
  | ((to_notify, status), t1) =>
    if status.code = 200 then
      ((to_notify, status), { t1 with users := derase username t1.users })
    else ((to_notify, status), t1)

/-- `Table.clear_user_conn`: remove the address fingerprint from `conns`,
462 when it is absent. -/
def clear_user_conn (t : Table) (addr : Nat) : Status × Table :=
  if (alookup t.conns addr).isSome = false then
    (.base 462 "Disconnect cannot find address".toList, t)
  else (.base 200 "success".toList, { t with conns := derase addr t.conns })

/-- `Table.__create_room`: format-check the room name (403 on failure), then
install the room with the creator as sole member; the returned JoinStatus is
marked as a creation. -/
def create_room (t : Table) (roomName : Str) (creator : User) : Status × Table :=
  if validNameFormat roomName = false then
    (.base 403 "Invalid room name format".toList, t)
  else
    (.join 200 "success".toList roomName creator.name true,
     { t with rooms := dinsert roomName ⟨roomName, creator.name, [creator.name]⟩ t.rooms })

/-- `Table.join_room`: 499 for an unknown user, creation when the room is
absent, 498 for a duplicate join, 200 (adding the member) otherwise. -/
def join_room (t : Table) (roomName username : Str) : Status × Table :=
  match alookup t.users username with
  | none => (.join 499 "User requested not found".toList roomName username false, t)
  | some usr =>
    match alookup t.rooms roomName with
    | none => create_room t roomName usr
    | some room =>
      if username ∈ room.members then
        (.join 498 "Duplicated joining".toList roomName username false, t)
      else
        (.join 200 "success".toList roomName username false,
         { t with rooms := dinsert roomName (room.join username) t.rooms })

/-- `Table.leave_room`: 499 (plain Status) for an unknown user, 450 for an
unknown room, 451 when the user is not a member, 200 (removing the member)
otherwise. -/
def leave_room (t : Table) (roomName username : Str) : Status × Table :=
  match alookup t.users username with
  | none => (.base 499 "User not found".toList, t)
  | some _ =>
    match alookup t.rooms roomName with
    | none => (.leave 450 "Room to leave not found".toList roomName username, t)
    | some room =>
      if username ∈ room.members then
        (.leave 200 "success".toList roomName username,
         { t with rooms := dinsert roomName { room with members := room.members.erase username } t.rooms })
      else
        (.leave 451 "User not found in room to leave".toList roomName username, t)

/-- `Table.list_rooms`: the set of room names. -/
def list_rooms (t : Table) : List Str := akeys t.rooms

/-- `Table.list_room_users`: the set of member names of a room.  When the
room is absent the Python function raises `UnboundLocalError` (the local
`users` is never assigned), modelled as `none`. -/
def list_room_users (t : Table) (roomName : Str) : Option (List Str) :=
  (alookup t.rooms roomName).map Room.members

/-- `Table.has_room`. -/
def has_room (t : Table) (roomName : Str) : Bool := (alookup t.rooms roomName).isSome

/-- `Table.has_username`. -/
def has_username (t : Table) (username : Str) : Bool := (alookup t.users username).isSome

/-- `Table.has_addr`. -/
def has_addr (t : Table) (addr : Nat) : Bool := (alookup t.conns addr).isSome

/-- `Table.get_username_by_addr`; `none` models the `AddrError` raise. -/
def get_username_by_addr (t : Table) (addr : Nat) : Option Str := alookup t.conns addr

/-- `Table.enqueue_message`: push the status onto the mailbox of every named
receiver that is present in `users`; absent receivers are skipped. -/
def Table.enqueue_message (t : Table) (message : Status) (receivers : List Str) : Table :=
  receivers.foldl (fun acc r =>
    match alookup acc.users r with
    | some u => { acc with users := dinsert r (u.enqueue_message message) acc.users }
    | none => acc) t

/-- The mailbox contents of a named user (empty for an unknown name). -/
def mailboxOf (t : Table) (w : Str) : List Status :=
  match alookup t.users w with
  | some u => u.msg_queue
  | none => []

/-! The command layer (message.py).  Each command's `execute(conn, addr)` is
modelled as a function of the registry and the requesting address; the outer
`Option` is `none` exactly when the Python code would raise
(`UnboundLocalError` out of `list_room_users`, or `AddrError` out of
`get_username_by_addr`); the inner `Option Status` is the Python return
value, `none` when `execute` falls off the end and returns `None`. -/

/-- The text of the 420 response built by `Msg.valid_addr`. -/
def msg420 (addr : Nat) : Str := "Not registered address".toList ++ natToStr addr

/-- The text of the 410 bad-argument-count response. -/
def msg410 : Str :=
  "bad argument. the number of room names given is not equal to paramater room_num".toList

/-- The fields `UserMessageToRooms.__init__` computes from the raw argument
bytes: declared count, parsed room-name slices, payload. -/
structure RoomsMsg where
  room_num : Int
  rooms : List Str
  message : Str
  deriving DecidableEq, Repr

/-- `UserMessageToRooms.__init__`: `room_num = int(args[:2])` (`none` models
the `ValueError` raise on an unparsable count — note that `int` accepts a
signed count such as `"-1"`), then one fixed-width 20-byte slice per
`range(room_num)` index (an empty list when the declared count is not
positive), then the payload from the start index `2 + room_num*20`, which is
negative when the declared count is. -/
def parseRoomsMsg (args : Str) : Option RoomsMsg :=
  match pyInt (pySlice args 0 2) with
  | none => none
  | some n =>
    some ⟨n, (List.range n.toNat).map (fun i => pySlice args (2 + i * 20) (2 + (i + 1) * 20)),
          pyDropInt args (2 + n * 20)⟩

/-- The fields `UserMessageToUsers.__init__` computes from the raw argument
bytes. -/
structure UsersMsg where
  user_num : Int
  users : List Str
  message : Str
  deriving DecidableEq, Repr

/-- `UserMessageToUsers.__init__`: `user_num = int(args[:2])`, then
`args[2:]` is split on the first two fields of `split('#')` (raising —
`none` — when there is no separator), and the recipient names come from
splitting the first field on the ampersand. -/
def parseUsersMsg (args : Str) : Option UsersMsg :=
  match pyInt (pySlice args 0 2) with
  | none => none
  | some n =>
    match splitCh '#' (args.drop 2) with
    | a :: b :: _ => some ⟨n, splitCh '&' a, b⟩
    | _ => none

/-- `UserMessageToRooms.__valid_room_names`: scan the named rooms; the first
unknown one produces the 497 MessageStatus, a clean scan produces 200. -/
def valid_room_names (t : Table) (sender msgData : Str) : List Str → Status
  | [] => .base 200 "success".toList
  | r :: rest =>
    if has_room t r then valid_room_names t sender msgData rest
    else .msg 497 "Room not found".toList true sender r [] msgData

/-- Option-valued map over a list, failing as soon as one element fails —
the shape of a Python loop that can raise at each iteration. -/
def omapM {α β : Type} (f : α → Option β) : List α → Option (List β)
  | [] => some []
  | x :: xs =>
    match f x, omapM f xs with
    | some y, some ys => some (y :: ys)
    | _, _ => none

/-- The key list of a Python dict built by assigning each list element in
turn: first occurrences, in order. -/
def pyDedup {α : Type} [DecidableEq α] (l : List α) : List α :=
  l.foldl (fun acc x => if x ∈ acc then acc else acc ++ [x]) []

/-- `UserMessageToRooms.__get_receivers`: the receivers dict maps each
distinct named room (first-occurrence order) to its member set; `none` when
`list_room_users` would raise. -/
def get_receivers (t : Table) (rooms : List Str) : Option (List (Str × List Str)) :=
  omapM (fun r => (list_room_users t r).map (fun us => (r, us))) (pyDedup rooms)

/-- The per-room fan-out loop of `UserMessageToRooms.execute`: one fresh 200
MessageStatus per room, enqueued to that room's member set. -/
def fanoutRooms (t : Table) (sender msgData : Str) : List (Str × List Str) → Table
  | [] => t
  | (room, recv) :: rest =>
    fanoutRooms
      (t.enqueue_message (.msg 200 "success".toList true sender room [] msgData) recv)
      sender msgData rest

/-- `UserMessageToRooms.execute`. -/
def roomsMsgExecute (t : Table) (addr : Nat) (m : RoomsMsg) :
    Option (Option Status × Table) :=
  if has_addr t addr = false then some (some (.base 420 (msg420 addr)), t)
  else
    match get_username_by_addr t addr with
    | none => none
    | some sender =>
      if (m.rooms.length : Int) ≠ m.room_num then
        let st : Status := .base 410 msg410
        some (some st, t.enqueue_message st [sender])
      else
        let st := valid_room_names t sender m.message m.rooms
        if st.code = 200 then
          match get_receivers t m.rooms with
          | none => none
          | some recvs => some (none, fanoutRooms t sender m.message recvs)
        else
          some (none, t.enqueue_message st [sender])

/-- `UserMessageToUsers.__valid_usernames`: the first unknown recipient
produces the 496 MessageStatus, a clean scan produces 200. -/
def valid_usernames (t : Table) (sender msgData : Str) : List Str → Status
  | [] => .base 200 "success".toList
  | u :: rest =>
    if has_username t u then valid_usernames t sender msgData rest
    else .msg 496 "Message receiver not found".toList false sender [] u msgData

/-- The per-recipient loop of `UserMessageToUsers.execute`: the loop variable
`status` is rebuilt for each recipient and survives the loop, so the pair
returned carries the status built for the last recipient. -/
def sendToUsers (t : Table) (sender msgData : Str) (st : Status) :
    List Str → Status × Table
  | [] => (st, t)
  | u :: rest =>
    let st2 : Status := .msg 200 "success".toList false sender [] u msgData
    sendToUsers (t.enqueue_message st2 [u]) sender msgData st2 rest

/-- `UserMessageToUsers.execute`. -/
def usersMsgExecute (t : Table) (addr : Nat) (m : UsersMsg) :
    Option (Option Status × Table) :=
  if has_addr t addr = false then some (some (.base 420 (msg420 addr)), t)
  else
    match get_username_by_addr t addr with
    | none => none
    | some sender =>
      if (m.users.length : Int) ≠ m.user_num then
        let st : Status := .base 410 msg410
        some (some st, t.enqueue_message st [sender])
      else
        let st := valid_usernames t sender m.message m.users
        if st.code = 200 then
          match sendToUsers t sender m.message st m.users with
          | (st2, t2) =>
            if sender ∈ m.users then some (none, t2)
            else some (none, t2.enqueue_message st2 [sender])
        else
          some (none, t.enqueue_message st [sender])

/-- `JoinCommand.execute`, including `__get_receivers`: on 200 the whole
member set of the room, on 499 the empty dict (which routes the reply to the
requesting session), otherwise the singleton of the joining user. -/
def joinExecute (t : Table) (addr : Nat) (roomName username : Str) :
    Option (Option Status × Table) :=
  if has_addr t addr = false then some (some (.base 420 (msg420 addr)), t)
  else
    match join_room t roomName username with
    | (st, t1) =>
      if st.code = 200 then
        match list_room_users t1 roomName with
        | none => none
        | some recv => some (some st, t1.enqueue_message st recv)
      else if st.code = 499 then
        match get_username_by_addr t1 addr with
        | none => none
        | some s => some (some st, t1.enqueue_message st [s])
      else
        some (some st, t1.enqueue_message st [username])

/-- `LeaveRoom.execute`: on 200 notify the remaining members plus the leaver
(set add), otherwise reply to the requesting session. -/
def leaveExecute (t : Table) (addr : Nat) (roomName username : Str) :
    Option (Option Status × Table) :=
  if has_addr t addr = false then some (some (.base 420 (msg420 addr)), t)
  else
    match leave_room t roomName username with
    | (st, t1) =>
      if st.code = 200 then
        match list_room_users t1 roomName with
        | none => none
        | some recv =>
          let recv2 := if username ∈ recv then recv else recv ++ [username]
          some (some st, t1.enqueue_message st recv2)
      else
        match get_username_by_addr t1 addr with
        | none => none
        | some s => some (some st, t1.enqueue_message st [s])

/-- The per-room fan-out loop of `UserDisconnect.execute`. -/
def fanoutDisc (t : Table) (username : Str) : List (Str × List Str) → Table
  | [] => t
  | (room, recv) :: rest =>
    fanoutDisc
      (t.enqueue_message (.disconnect 200 "success".toList username room none) recv)
      username rest

/-- `UserDisconnect.execute`.  On the 462 path the Python code passes the
address positionally into the `room` parameter of `DisconnectStatus`;
the model renders the address as its decimal string there. -/
def disconnectExecute (t : Table) (addr : Nat) (username : Str) :
    Option (Option Status × Table) :=
  if has_addr t addr = false then some (some (.base 420 (msg420 addr)), t)
  else
    match user_disconnection t username with
    | ((to_notify, st1), t1) =>
      if st1.code = 200 then
        match clear_user_conn t1 addr with
        | (st2, t2) =>
          if st2.code ≠ 200 then
            some (some (.disconnect st2.code st2.messageText username (natToStr addr) none), t2)
          else
            match omapM (fun r => (list_room_users t2 r).map (fun us => (r, us)))
                (to_notify.getD []) with
            | none => none
            | some recvs =>
              some (some (.disconnect 200 "success".toList username [] none),
                    fanoutDisc t2 username recvs)
      else
        some (some st1, t1)

/-- `ListJoinedUsers.execute`. -/
def listJoinedExecute (t : Table) (addr : Nat) (roomName : Str) :
    Option (Option Status × Table) :=
  if has_addr t addr = false then some (some (.base 420 (msg420 addr)), t)
  else
    match (if has_room t roomName then
             (list_room_users t roomName).map
               (fun ul => Status.roomUserList 200 "success".toList roomName ul)
           else
             some (.roomUserList 451 "Room not found to list joined users".toList
                    roomName [])) with
    | none => none
    | some st =>
      match get_username_by_addr t addr with
      | none => none
      | some s => some (some st, t.enqueue_message st [s])

/-! The wire codec (status.py): `to_bytes` per variant, and the per-variant
`parse` static methods, which consume the frame interior (the bytes between
the two dollar delimiters). -/

/-- `to_bytes` of each status variant, producing the full framed response. -/
def Status.to_bytes : Status → Str
  | .base c m => '$' :: intToStr c ++ m ++ ['$']
  | .registration c m u =>
    '$' :: intToStr c ++ "00001".toList ++ u ++ '#' :: m ++ ['$']
  | .join c m r u cr =>
    '$' :: intToStr c ++ "00002".toList ++ (if cr then '1' else '0') :: r ++ u ++ '#' :: m ++ ['$']
  | .msg c m tr s r u d =>
    if tr then
      '$' :: intToStr c ++ "00003".toList ++ '1' :: s ++ '#' :: r ++ '#' :: d ++ '#' :: m ++ ['$']
    else
      '$' :: intToStr c ++ "00004".toList ++ '0' :: s ++ '#' :: u ++ '#' :: d ++ '#' :: m ++ ['$']
  | .disconnect c m u r a =>
    match a with
    | none => '$' :: intToStr c ++ "00010".toList ++ u ++ '#' :: '#' :: r ++ '#' :: m ++ ['$']
    | some ad => '$' :: intToStr c ++ "00010".toList ++ u ++ '#' :: ad ++ '#' :: r ++ '#' :: m ++ ['$']
  | .leave c m r u =>
    '$' :: intToStr c ++ "00005".toList ++ r ++ u ++ '#' :: m ++ ['$']
  | .roomUserList c m r ul =>
    '$' :: intToStr c ++ "00006".toList ++ r ++ joinCh '&' ul ++ '#' :: m ++ ['$']
  | .listRoom c m rl =>
    '$' :: intToStr c ++ "00007".toList ++ joinCh '&' rl ++ '#' :: m ++ ['$']

/-- The interior of a frame: the bytes between the two dollar delimiters,
`bytes[1:-1]` as the client-side deframer extracts them. -/
def interior (s : Str) : Str := pySlice s 1 (s.length - 1)

/-- `Status.parse`. -/
def parseStatus (s : Str) : Option Status :=
  (pyInt (pySlice s 0 3)).map (fun c => .base c (s.drop 3))

/-- `RegistrationStatus.parse`. -/
def parseRegistration (s : Str) : Option Status :=
  if s.length < 9 then none
  else match pyInt (pySlice s 0 3) with
  | none => none
  | some c =>
    if pySlice s 3 8 ≠ "00001".toList then none
    else match splitCh '#' (s.drop 8) with
    | [u, m] => some (.registration c m u)
    | _ => none

/-- `JoinStatus.parse`: byte 8 is the creation flag (`'1'` means creation),
bytes 9–28 the fixed-width room name, and the rest splits into username and
message. -/
def parseJoin (s : Str) : Option Status :=
  if s.length < 29 then none
  else match pyInt (pySlice s 0 3) with
  | none => none
  | some c =>
    if pySlice s 3 8 ≠ "00002".toList then none
    else match splitCh '#' (s.drop 29) with
    | [u, m] => some (.join c m (pySlice s 9 29) u (pySlice s 8 9 = ['1']))
    | _ => none

/-- `MessageStatus.parse`: byte 8 selects room (`'1'`, command 00003) or
private (command 00004) layout; the rest splits into sender, room-or-user,
data and message. -/
def parseMessage (s : Str) : Option Status :=
  if s.length < 14 then none
  else match pyInt (pySlice s 0 3) with
  | none => none
  | some c =>
    if pySlice s 8 9 = ['1'] then
      if pySlice s 3 8 ≠ "00003".toList then none
      else match splitCh '#' (s.drop 9) with
      | [se, nm, d, m] => some (.msg c m true se nm [] d)
      | _ => none
    else
      if pySlice s 3 8 ≠ "00004".toList then none
      else match splitCh '#' (s.drop 9) with
      | [se, nm, d, m] => some (.msg c m false se [] nm d)
      | _ => none

/-- `DisconnectStatus.parse`: an empty address field decodes to `None`. -/
def parseDisconnect (s : Str) : Option Status :=
  if s.length < 11 then none
  else match pyInt (pySlice s 0 3) with
  | none => none
  | some c =>
    if pySlice s 3 8 ≠ "00010".toList then none
    else match splitCh '#' (s.drop 8) with
    | [name, ad, room, m] =>
      some (.disconnect c m name room (if ad = [] then none else some ad))
    | _ => none

/-- `LeaveStatus.parse`: bytes 8–27 the fixed-width room name. -/
def parseLeave (s : Str) : Option Status :=
  if s.length < 11 then none
  else match pyInt (pySlice s 0 3) with
  | none => none
  | some c =>
    if pySlice s 3 8 ≠ "00005".toList then none
    else match splitCh '#' (s.drop 28) with
    | [u, m] => some (.leave c m (pySlice s 8 28) u)
    | _ => none

/-- `RoomUserListStatus.parse`: the user-list field splits on ampersands
(Python builds a set from the pieces; the model keeps the pieces). -/
def parseRoomUserList (s : Str) : Option Status :=
  if s.length < 11 then none
  else match pyInt (pySlice s 0 3) with
  | none => none
  | some c =>
    if pySlice s 3 8 ≠ "00006".toList then none
    else match splitCh '#' (s.drop 28) with
    | [ul, m] => some (.roomUserList c m (pySlice s 8 28) (splitCh '&' ul))
    | _ => none

/-- `ListRoomStatus.parse`. -/
def parseListRoom (s : Str) : Option Status :=
  if s.length < 11 then none
  else match pyInt (pySlice s 0 3) with
  | none => none
  | some c =>
    if pySlice s 3 8 ≠ "00007".toList then none
    else match splitCh '#' (s.drop 8) with
    | [rl, m] => some (.listRoom c m (splitCh '&' rl))
    | _ => none

/-- The decoder matching a value's own variant, as the round-trip law reads:
each variant's `parse` applied to a frame of that variant. -/
def parseSameVariant : Status → Str → Option Status
  | .base _ _, s => parseStatus s
  | .registration _ _ _, s => parseRegistration s
  | .join _ _ _ _ _, s => parseJoin s
  | .msg _ _ _ _ _ _ _, s => parseMessage s
  | .disconnect _ _ _ _ _, s => parseDisconnect s
  | .leave _ _ _ _, s => parseLeave s
  | .roomUserList _ _ _ _, s => parseRoomUserList s
  | .listRoom _ _ _, s => parseListRoom s

/-! Lemmas about the association-list dict model. -/

theorem alookup_dinsert_self {α β : Type} [DecidableEq α] (l : List (α × β)) (k : α) (v : β) :
    alookup (dinsert k v l) k = some v := by
  induction l with
  | nil => simp [dinsert, alookup]
  | cons p t ih =>
    obtain ⟨k2, v2⟩ := p
    by_cases h : k2 = k <;> simp [dinsert, alookup, h, ih]

theorem alookup_dinsert_ne {α β : Type} [DecidableEq α] (l : List (α × β)) {k k2 : α}
    (v : β) (h : k2 ≠ k) : alookup (dinsert k v l) k2 = alookup l k2 := by
  induction l with
  | nil => simp [dinsert, alookup, Ne.symm h]
  | cons p t ih =>
    obtain ⟨k3, v3⟩ := p
    by_cases h3 : k3 = k
    · subst h3
      simp [dinsert, alookup, Ne.symm h]
    · simp only [dinsert, if_neg h3, alookup]
      by_cases h4 : k3 = k2 <;> simp [h4, ih]

theorem alookup_derase_ne {α β : Type} [DecidableEq α] (l : List (α × β)) {k k2 : α}
    (h : k2 ≠ k) : alookup (derase k l) k2 = alookup l k2 := by
  induction l with
  | nil => simp [derase]
  | cons p t ih =>
    obtain ⟨k3, v3⟩ := p
    by_cases h3 : k3 = k
    · subst h3
      simp [derase, alookup, Ne.symm h]
    · simp only [derase, if_neg h3, alookup]
      by_cases h4 : k3 = k2 <;> simp [h4, ih]

theorem alookup_eq_none_of_not_mem {α β : Type} [DecidableEq α] {l : List (α × β)} {k : α}
    (h : k ∉ akeys l) : alookup l k = none := by
  induction l with
  | nil => rfl
  | cons p t ih =>
    obtain ⟨k2, v2⟩ := p
    rw [show akeys ((k2, v2) :: t) = k2 :: akeys t from rfl, List.mem_cons, not_or] at h
    rw [alookup, if_neg (fun he => h.1 he.symm)]
    exact ih h.2

theorem alookup_derase_self {α β : Type} [DecidableEq α] {l : List (α × β)} (k : α)
    (hnd : (akeys l).Nodup) : alookup (derase k l) k = none := by
  induction l with
  | nil => rfl
  | cons p t ih =>
    obtain ⟨k2, v2⟩ := p
    rw [show akeys ((k2, v2) :: t) = k2 :: akeys t from rfl, List.nodup_cons] at hnd
    by_cases h2 : k2 = k
    · rw [derase, if_pos h2]
      exact alookup_eq_none_of_not_mem (h2 ▸ hnd.1)
    · rw [derase, if_neg h2, alookup, if_neg h2]
      exact ih hnd.2

theorem mem_of_alookup_some {α β : Type} [DecidableEq α] {l : List (α × β)} {k : α} {v : β}
    (h : alookup l k = some v) : (k, v) ∈ l := by
  induction l with
  | nil => simp [alookup] at h
  | cons p t ih =>
    obtain ⟨k2, v2⟩ := p
    by_cases h2 : k2 = k
    · subst h2
      rw [alookup, if_pos rfl] at h
      injection h with h
      exact h ▸ List.mem_cons_self _ _
    · simp only [alookup, if_neg h2] at h
      exact List.mem_cons_of_mem _ (ih h)

theorem alookup_isSome_iff_mem_akeys {α β : Type} [DecidableEq α] (l : List (α × β)) (k : α) :
    (alookup l k).isSome = true ↔ k ∈ akeys l := by
  induction l with
  | nil => simp [alookup, akeys]
  | cons p t ih =>
    obtain ⟨k2, v2⟩ := p
    by_cases h2 : k2 = k <;> simp [alookup, akeys, h2, ih]
    exact fun h => absurd h.symm h2

theorem alookup_map_value {α β γ : Type} [DecidableEq α] (l : List (α × β)) (f : β → γ)
    (k : α) : alookup (l.map (fun p => (p.1, f p.2))) k = (alookup l k).map f := by
  induction l with
  | nil => simp [alookup]
  | cons p t ih =>
    obtain ⟨k2, v2⟩ := p
    by_cases h2 : k2 = k <;> simp [alookup, h2, ih]

/-! Lemmas about mailbox fan-out. -/

theorem enqueue_nil (t : Table) (st : Status) : t.enqueue_message st [] = t := rfl

theorem enqueue_cons (t : Table) (st : Status) (r : Str) (rest : List Str) :
    t.enqueue_message st (r :: rest) =
      Table.enqueue_message
        (match alookup t.users r with
         | some u => { t with users := dinsert r (u.enqueue_message st) t.users }
         | none => t) st rest := rfl

theorem enqueue_single_hit (t : Table) (st : Status) {r : Str} {u : User}
    (h : alookup t.users r = some u) :
    t.enqueue_message st [r] = { t with users := dinsert r (u.enqueue_message st) t.users } := by
  rw [enqueue_cons, h]
  rfl

theorem enqueue_single_miss (t : Table) (st : Status) {r : Str}
    (h : alookup t.users r = none) : t.enqueue_message st [r] = t := by
  rw [enqueue_cons, h]
  rfl

theorem mailbox_enqueue_single_self (t : Table) (st : Status) {r : Str} {u : User}
    (h : alookup t.users r = some u) :
    mailboxOf (t.enqueue_message st [r]) r = mailboxOf t r ++ [st] := by
  rw [enqueue_single_hit t st h]
  simp [mailboxOf, alookup_dinsert_self, h, User.enqueue_message]

theorem mailbox_enqueue_single_other (t : Table) (st : Status) {r w : Str}
    (hw : w ≠ r) : mailboxOf (t.enqueue_message st [r]) w = mailboxOf t w := by
  cases h : alookup t.users r with
  | none => rw [enqueue_single_miss t st h]
  | some u =>
    rw [enqueue_single_hit t st h]
    simp [mailboxOf, alookup_dinsert_ne _ _ hw]

theorem enqueue_rooms_eq (t : Table) (st : Status) (rs : List Str) :
    (t.enqueue_message st rs).rooms = t.rooms := by
  induction rs generalizing t with
  | nil => rfl
  | cons r rest ih =>
    rw [enqueue_cons]
    cases alookup t.users r <;> exact ih _

theorem enqueue_conns_eq (t : Table) (st : Status) (rs : List Str) :
    (t.enqueue_message st rs).conns = t.conns := by
  induction rs generalizing t with
  | nil => rfl
  | cons r rest ih =>
    rw [enqueue_cons]
    cases alookup t.users r <;> exact ih _

theorem enqueue_lookup_isSome (t : Table) (st : Status) (rs : List Str) (w : Str) :
    (alookup (t.enqueue_message st rs).users w).isSome = (alookup t.users w).isSome := by
  induction rs generalizing t with
  | nil => rfl
  | cons r rest ih =>
    rw [enqueue_cons]
    cases h : alookup t.users r with
    | none => exact ih _
    | some u =>
      rw [ih]
      by_cases hw : w = r
      · subst hw
        simp [alookup_dinsert_self, h]
      · simp [alookup_dinsert_ne _ _ hw]

theorem mailbox_enqueue_not_mem (t : Table) (st : Status) (rs : List Str) (w : Str) :
    w ∉ rs → mailboxOf (t.enqueue_message st rs) w = mailboxOf t w := by
  induction rs generalizing t with
  | nil => exact fun _ => rfl
  | cons r rest ih =>
    intro hw
    rw [List.mem_cons, not_or] at hw
    rw [enqueue_cons]
    cases h : alookup t.users r with
    | none => exact ih _ hw.2
    | some u =>
      rw [ih _ hw.2]
      simp [mailboxOf, alookup_dinsert_ne _ _ hw.1]

/-! Concrete sample data shared by the witnesses. -/

/-- A valid 20-character username. -/
def wAlice : Str := "aaaaaaaaaaaaaaaaaaaa".toList

/-- A second valid 20-character username. -/
def wBob : Str := "bbbbbbbbbbbbbbbbbbbb".toList

/-- A valid 20-character room name. -/
def wDevs : Str := "dddddddddddddddddddd".toList

/-- A registry with alice (address 0) and bob (address 1) registered, and a
room whose sole member is alice. -/
def wTable : Table :=
  ⟨[(wDevs, ⟨wDevs, wAlice, [wAlice]⟩)],
   [(wAlice, mkUser wAlice 0), (wBob, mkUser wBob 1)],
   [(0, wAlice), (1, wBob)]⟩

/-- C2 counterexample: one status is pushed into a fresh mailbox, then
`disconnection_release` sets the latch; the next `get_messages` returns the
disconnect sentinel (`None`), not the queued batch the claim promises. -/
theorem c2_push_before_latch_cex :
    (((mkUser [] 0).enqueue_message (.base 200 [])).disconnection_release.get_messages).1
      = PopResult.sentinel ∧
    PopResult.sentinel ≠ PopResult.msgs [.base 200 []] := by
  exact ⟨by decide, by decide⟩

/-- C2 amended: once `disconnection_release` has set the latch, the next
`get_messages` returns the sentinel even when statuses were pushed first
(the queued statuses are not delivered); a queued batch is returned only
while the latch is unset. -/
theorem c2_latch_wins (u : User) (s : Status) :
    ((u.enqueue_message s).disconnection_release.get_messages).1 = PopResult.sentinel ∧
    (u.is_disconnected = false → u.msg_queue ≠ [] →
      u.get_messages = (PopResult.msgs u.msg_queue, { u with msg_queue := [] })) := by
  constructor
  · simp [User.get_messages, User.disconnection_release, User.enqueue_message]
  · intro h1 h2
    simp [User.get_messages, h1, h2, Nat.le_zero, List.length_eq_zero]

/-- Witness for C2: the amended claim evaluated on a one-element mailbox. -/
theorem c2_latch_wins_witness :
    User.get_messages ⟨[], 0, [.base 200 []], false⟩
      = (PopResult.msgs [.base 200 []], ⟨[], 0, [], false⟩) :=
  (c2_latch_wins ⟨[], 0, [.base 200 []], false⟩ (.base 200 [])).2 rfl (by decide)

/-- C6: a Leave by a registered user of an existing room the user is not in
returns LeaveStatus 451 and leaves the registry untouched; a Join by a
registered user into an existing room the user is already in returns
JoinStatus 498 and leaves the registry untouched. -/
theorem c6_noop_error_paths (t : Table) (roomName username : Str) (usr : User) (room : Room)
    (hu : alookup t.users username = some usr)
    (hr : alookup t.rooms roomName = some room) :
    (username ∉ room.members →
      leave_room t roomName username
        = (.leave 451 "User not found in room to leave".toList roomName username, t)) ∧
    (username ∈ room.members →
      join_room t roomName username
        = (.join 498 "Duplicated joining".toList roomName username false, t)) := by
  constructor
  · intro hm
    simp [leave_room, hu, hr, Room.leave, hm]
  · intro hm
    simp [join_room, hu, hr, hm]

/-- Witness for C6: bob leaving a room he never joined yields 451 without
mutation; alice re-joining her own room yields 498 without mutation. -/
theorem c6_noop_error_paths_witness :
    leave_room wTable wDevs wBob
      = (.leave 451 "User not found in room to leave".toList wDevs wBob, wTable) ∧
    join_room wTable wDevs wAlice
      = (.join 498 "Duplicated joining".toList wDevs wAlice false, wTable) :=
  ⟨(c6_noop_error_paths wTable wDevs wBob (mkUser wBob 1) ⟨wDevs, wAlice, [wAlice]⟩
      (by decide) (by decide)).1 (by decide),
   (c6_noop_error_paths wTable wDevs wAlice (mkUser wAlice 0) ⟨wDevs, wAlice, [wAlice]⟩
      (by decide) (by decide)).2 (by decide)⟩

/-- C7: disconnecting a registered user returns status code 200 together
with the set of rooms that contained the user, removes the user from
`users` and from every room's member map; an immediately following second
disconnection of the same name returns DisconnectStatus 461. -/
theorem c7_disconnect_twice (t : Table) (username : Str) (usr : User)
    (hu : alookup t.users username = some usr)
    (hnd : (akeys t.users).Nodup)
    (hmem : ∀ p ∈ t.rooms, (Room.members p.2).Nodup) :
    ∃ notified t2,
      user_disconnection t username = ((some notified, .base 200 "success".toList), t2) ∧
      (∀ r : Str, r ∈ notified ↔ ∃ p ∈ t.rooms, p.1 = r ∧ username ∈ p.2.members) ∧
      alookup t2.users username = none ∧
      (∀ r room2, alookup t2.rooms r = some room2 → username ∉ room2.members) ∧
      user_disconnection t2 username
        = ((none, .disconnect 461 "Disconnect user not found".toList username [] none), t2) := by
  have hsome : (alookup t.users username).isSome = true := by rw [hu]; rfl
  refine ⟨(t.rooms.filter (fun p => decide (username ∈ p.2.members))).map Prod.fst,
    { t with rooms := t.rooms.map (fun p => (p.1, (p.2.leave username).2)),
             users := derase username t.users }, ?_, ?_, ?_, ?_, ?_⟩
  · simp [user_disconnection, clearDisconnectedUser, hsome, Status.code]
  · intro r
    simp only [List.mem_map, List.mem_filter, decide_eq_true_eq]
    constructor
    · rintro ⟨p, ⟨hp, hm⟩, hr⟩
      exact ⟨p, hp, hr, hm⟩
    · rintro ⟨p, hp, hr, hm⟩
      exact ⟨p, ⟨hp, hm⟩, hr⟩
  · exact alookup_derase_self username hnd
  · intro r room2 h2
    simp only at h2
    rw [alookup_map_value t.rooms (fun rm => (rm.leave username).2) r] at h2
    rw [Option.map_eq_some'] at h2
    obtain ⟨room, h3, h4⟩ := h2
    have hnd2 : room.members.Nodup := hmem (r, room) (mem_of_alookup_some h3)
    by_cases hm : username ∈ room.members
    · rw [Room.leave, if_pos hm] at h4
      rw [← h4]
      exact hnd2.not_mem_erase
    · rw [Room.leave, if_neg hm] at h4
      rw [← h4]
      exact hm
  · have hnone : alookup (derase username t.users) username = none :=
      alookup_derase_self username hnd
    simp [user_disconnection, clearDisconnectedUser, hnone, Status.code]

/-- Witness for C7: alice, sole member of the sample room, disconnects
twice. -/
theorem c7_disconnect_twice_witness :
    ∃ notified t2,
      user_disconnection wTable wAlice = ((some notified, .base 200 "success".toList), t2) ∧
      (∀ r : Str, r ∈ notified ↔ ∃ p ∈ wTable.rooms, p.1 = r ∧ wAlice ∈ p.2.members) ∧
      alookup t2.users wAlice = none ∧
      (∀ r room2, alookup t2.rooms r = some room2 → wAlice ∉ room2.members) ∧
      user_disconnection t2 wAlice
        = ((none, .disconnect 461 "Disconnect user not found".toList wAlice [] none), t2) :=
  c7_disconnect_twice wTable wAlice (mkUser wAlice 0) (by decide) (by decide) (by decide)

/-- The room list built by `UserMessageToRooms.__init__` is a list
comprehension over `range(room_num)`, so its length is the truncation of
the declared count at zero. -/
theorem parse_rooms_length {args : Str} {m : RoomsMsg}
    (h : parseRoomsMsg args = some m) : m.rooms.length = m.room_num.toNat := by
  unfold parseRoomsMsg at h
  cases hd : pyInt (pySlice args 0 2) with
  | none =>
    rw [hd] at h
    exact Option.noConfusion h
  | some n =>
    rw [hd] at h
    injection h with h
    rw [← h]
    simp

/-- For a nonnegative declared count the parsed room list has exactly
`room_num` entries. -/
theorem parse_rooms_count_nonneg {args : Str} {m : RoomsMsg}
    (h : parseRoomsMsg args = some m) (hnn : 0 ≤ m.room_num) :
    (m.rooms.length : Int) = m.room_num := by
  have hl := parse_rooms_length h
  omega

/-- A parsed room list that is nonempty forces a positive declared count,
hence the declared-count check passes. -/
theorem parse_rooms_count_of_ne_nil {args : Str} {m : RoomsMsg}
    (h : parseRoomsMsg args = some m) (hne : m.rooms ≠ []) :
    (m.rooms.length : Int) = m.room_num := by
  have hl := parse_rooms_length h
  have hpos : m.rooms.length ≠ 0 := fun h0 => hne (List.eq_nil_of_length_eq_zero h0)
  omega

/-- C9 counterexample: Python `int` accepts a signed count field, so the
room-message argument string "-1Hi" parses — `int("-1")` returns −1 without
raising — with declared count −1 and an empty comprehension-built room
list; the declared-count check `len(rooms) == room_num` then fails and the
room path reaches the 410 reply that the claim calls unreachable. -/
theorem c9_negative_count_cex :
    parseRoomsMsg "-1Hi".toList = some ⟨-1, [], "-1Hi".toList⟩ ∧
    (RoomsMsg.rooms ⟨-1, [], "-1Hi".toList⟩).length = 0 ∧
    roomsMsgExecute wTable 0 ⟨-1, [], "-1Hi".toList⟩
      = some (some (.base 410 msg410),
              wTable.enqueue_message (.base 410 msg410) [wAlice]) := by
  refine ⟨by decide, rfl, by decide⟩

/-- C9 corrected: whenever the declared count of a parsed room-message
request is nonnegative — as it is for every plain two-digit count — the
comprehension-built room list has exactly `room_num` slices, the
declared-count check passes, and the room path cannot reply 410; but the
check is not dead code on either path: a negative declared count (which
Python `int` accepts, e.g. "-1") parses to an empty room list and fails the
check, reaching the 410 reply on the room path, and on the private path the
split-derived recipient count can differ from the declared count, likewise
reaching 410. -/
theorem c9_room_count_nonneg :
    (∀ (args : Str) (m : RoomsMsg), parseRoomsMsg args = some m →
      0 ≤ m.room_num → (m.rooms.length : Int) = m.room_num) ∧
    (∀ (t : Table) (addr : Nat) (args : Str) (m : RoomsMsg) (st : Option Status) (t2 : Table),
      parseRoomsMsg args = some m → 0 ≤ m.room_num →
      roomsMsgExecute t addr m = some (st, t2) →
      ∀ s : Status, st = some s → s.code ≠ 410) ∧
    (∃ (m : RoomsMsg) (st : Status) (t2 : Table),
      parseRoomsMsg "-1Hi".toList = some m ∧ m.room_num < 0 ∧
      roomsMsgExecute wTable 0 m = some (some st, t2) ∧ st.code = 410) ∧
    (∃ (m : UsersMsg) (st : Status) (t2 : Table),
      parseUsersMsg "02a#m".toList = some m ∧ (m.users.length : Int) ≠ m.user_num ∧
      usersMsgExecute wTable 0 m = some (some st, t2) ∧ st.code = 410) := by
  refine ⟨fun args m h hnn => parse_rooms_count_nonneg h hnn, ?_, ?_, ?_⟩
  · intro t addr args m st t2 hp hnn he s hs
    have hlen : (m.rooms.length : Int) = m.room_num := parse_rooms_count_nonneg hp hnn
    simp only [roomsMsgExecute] at he
    split at he
    · injection he with he
      injection he with he1 he2
      rw [← he1] at hs
      injection hs with hs
      rw [← hs]
      simp [Status.code]
    · split at he
      · exact Option.noConfusion he
      · split at he
        · exact absurd hlen (by assumption)
        · split at he
          · split at he
            · exact Option.noConfusion he
            · injection he with he
              injection he with he1 he2
              rw [← he1] at hs
              exact Option.noConfusion hs
          · injection he with he
            injection he with he1 he2
            rw [← he1] at hs
            exact Option.noConfusion hs
  · exact ⟨⟨-1, [], "-1Hi".toList⟩, .base 410 msg410,
      wTable.enqueue_message (.base 410 msg410) [wAlice],
      by decide, by decide, by decide, by decide⟩
  · exact ⟨⟨2, [['a']], ['m']⟩, .base 410 msg410,
      wTable.enqueue_message (.base 410 msg410) [wAlice],
      by decide, by decide, rfl, by decide⟩

/-- When at least one named room is unknown, `__valid_room_names` returns
the 497 MessageStatus built for the first unknown room. -/
theorem valid_room_names_bad (t : Table) (sender msgData : Str) (rooms : List Str)
    (h : ∃ r ∈ rooms, has_room t r = false) :
    ∃ rb ∈ rooms, has_room t rb = false ∧
      valid_room_names t sender msgData rooms
        = .msg 497 "Room not found".toList true sender rb [] msgData := by
  induction rooms with
  | nil =>
    obtain ⟨r, hr, _⟩ := h
    exact absurd hr (List.not_mem_nil r)
  | cons r rest ih =>
    by_cases hr : has_room t r = true
    · rw [valid_room_names, if_pos hr]
      obtain ⟨rb, hm, hb, he⟩ := ih (by
        obtain ⟨r2, hr2, hb2⟩ := h
        rcases List.mem_cons.mp hr2 with he2 | hm2
        · rw [← he2] at hr
          exact absurd hr (by rw [hb2]; exact Bool.false_ne_true)
        · exact ⟨r2, hm2, hb2⟩)
      exact ⟨rb, List.mem_cons_of_mem _ hm, hb, he⟩
    · rw [valid_room_names, if_neg hr]
      exact ⟨r, List.mem_cons_self _ _, Bool.eq_false_iff.mpr hr, rfl⟩

/-- When at least one named recipient is unknown, `__valid_usernames`
returns the 496 MessageStatus built for the first unknown recipient. -/
theorem valid_usernames_bad (t : Table) (sender msgData : Str) (users : List Str)
    (h : ∃ u ∈ users, has_username t u = false) :
    ∃ ub ∈ users, has_username t ub = false ∧
      valid_usernames t sender msgData users
        = .msg 496 "Message receiver not found".toList false sender [] ub msgData := by
  induction users with
  | nil =>
    obtain ⟨u, hu, _⟩ := h
    exact absurd hu (List.not_mem_nil u)
  | cons u rest ih =>
    by_cases hu : has_username t u = true
    · rw [valid_usernames, if_pos hu]
      obtain ⟨ub, hm, hb, he⟩ := ih (by
        obtain ⟨u2, hu2, hb2⟩ := h
        rcases List.mem_cons.mp hu2 with he2 | hm2
        · rw [← he2] at hu
          exact absurd hu (by rw [hb2]; exact Bool.false_ne_true)
        · exact ⟨u2, hm2, hb2⟩)
      exact ⟨ub, List.mem_cons_of_mem _ hm, hb, he⟩
    · rw [valid_usernames, if_neg hu]
      exact ⟨u, List.mem_cons_self _ _, Bool.eq_false_iff.mpr hu, rfl⟩

/-- C1: when a room-message names an unknown room, or a private message
names an unregistered recipient, no MessageStatus 200 is enqueued anywhere;
exactly one error status (497 / 496 respectively) is enqueued, into the
sender's mailbox only. -/
theorem c1_all_or_nothing :
    (∀ (t : Table) (addr : Nat) (args : Str) (m : RoomsMsg) (sender : Str) (su : User),
      alookup t.conns addr = some sender →
      alookup t.users sender = some su →
      parseRoomsMsg args = some m →
      (∃ r ∈ m.rooms, has_room t r = false) →
      ∃ rb t2,
        rb ∈ m.rooms ∧ has_room t rb = false ∧
        roomsMsgExecute t addr m = some (none, t2) ∧
        mailboxOf t2 sender = mailboxOf t sender
          ++ [.msg 497 "Room not found".toList true sender rb [] m.message] ∧
        (∀ w, w ≠ sender → mailboxOf t2 w = mailboxOf t w) ∧
        (∀ w s2, s2 ∈ mailboxOf t2 w → s2 ∉ mailboxOf t w → s2.code = 497)) ∧
    (∀ (t : Table) (addr : Nat) (m : UsersMsg) (sender : Str) (su : User),
      alookup t.conns addr = some sender →
      alookup t.users sender = some su →
      (m.users.length : Int) = m.user_num →
      (∃ u ∈ m.users, has_username t u = false) →
      ∃ ub t2,
        ub ∈ m.users ∧ has_username t ub = false ∧
        usersMsgExecute t addr m = some (none, t2) ∧
        mailboxOf t2 sender = mailboxOf t sender
          ++ [.msg 496 "Message receiver not found".toList false sender [] ub m.message] ∧
        (∀ w, w ≠ sender → mailboxOf t2 w = mailboxOf t w) ∧
        (∀ w s2, s2 ∈ mailboxOf t2 w → s2 ∉ mailboxOf t w → s2.code = 496)) := by
  constructor
  · intro t addr args m sender su hconns hu hp hbadrooms
    obtain ⟨rb, hm, hb, hv⟩ := valid_room_names_bad t sender m.message m.rooms hbadrooms
    have hne : m.rooms ≠ [] := fun h0 => by
      rw [h0] at hm
      exact absurd hm (List.not_mem_nil rb)
    refine ⟨rb,
      t.enqueue_message (.msg 497 "Room not found".toList true sender rb [] m.message)
        [sender], hm, hb, ?_, ?_, ?_, ?_⟩
    · simp only [roomsMsgExecute, has_addr, get_username_by_addr, hconns,
        Option.isSome_some, parse_rooms_count_of_ne_nil hp hne, ne_eq, not_true_eq_false,
        if_false, hv, Status.code]
      simp
    · rw [mailbox_enqueue_single_self t _ hu]
    · intro w hw
      rw [mailbox_enqueue_single_other t _ hw]
    · intro w s2 h2 h3
      by_cases hw : w = sender
      · subst hw
        rw [mailbox_enqueue_single_self t _ hu] at h2
        rcases List.mem_append.mp h2 with hin | hin
        · exact absurd hin h3
        · rw [List.mem_singleton.mp hin]
          rfl
      · rw [mailbox_enqueue_single_other t _ hw] at h2
        exact absurd h2 h3
  · intro t addr m sender su hconns hu hcnt hbadusers
    obtain ⟨ub, hm, hb, hv⟩ := valid_usernames_bad t sender m.message m.users hbadusers
    refine ⟨ub,
      t.enqueue_message (.msg 496 "Message receiver not found".toList false sender [] ub
        m.message) [sender], hm, hb, ?_, ?_, ?_, ?_⟩
    · simp only [usersMsgExecute, has_addr, get_username_by_addr, hconns,
        Option.isSome_some, hcnt, ne_eq, not_true_eq_false, if_false, hv, Status.code]
      simp
    · rw [mailbox_enqueue_single_self t _ hu]
    · intro w hw
      rw [mailbox_enqueue_single_other t _ hw]
    · intro w s2 h2 h3
      by_cases hw : w = sender
      · subst hw
        rw [mailbox_enqueue_single_self t _ hu] at h2
        rcases List.mem_append.mp h2 with hin | hin
        · exact absurd hin h3
        · rw [List.mem_singleton.mp hin]
          rfl
      · rw [mailbox_enqueue_single_other t _ hw] at h2
        exact absurd h2 h3

/-- A 20-character room name absent from the sample registry. -/
def wGhost : Str := "rrrrrrrrrrrrrrrrrrrr".toList

/-- `__valid_usernames` returns the 200 status when every named recipient
is registered. -/
theorem valid_usernames_ok (t : Table) (sender msgData : Str) (users : List Str)
    (h : ∀ u ∈ users, has_username t u = true) :
    valid_usernames t sender msgData users = .base 200 "success".toList := by
  induction users with
  | nil => rfl
  | cons u rest ih =>
    rw [valid_usernames, if_pos (h u (List.mem_cons_self _ _))]
    exact ih (fun v hv => h v (List.mem_cons_of_mem _ hv))

/-- The private-message fan-out loop leaves the mailbox of anyone not among
the recipients untouched. -/
theorem sendToUsers_mailbox_not_mem (sender msgData : Str) (us : List Str) (w : Str)
    (hw : w ∉ us) : ∀ (t : Table) (st : Status),
    mailboxOf (sendToUsers t sender msgData st us).2 w = mailboxOf t w := by
  induction us with
  | nil => exact fun _ _ => rfl
  | cons u rest ih =>
    intro t st
    rw [List.mem_cons, not_or] at hw
    rw [sendToUsers, ih hw.2]
    exact mailbox_enqueue_single_other t _ hw.1

/-- The private-message fan-out loop preserves which names are registered. -/
theorem sendToUsers_lookup_isSome (sender msgData : Str) (us : List Str) (w : Str) :
    ∀ (t : Table) (st : Status),
    (alookup (sendToUsers t sender msgData st us).2.users w).isSome
      = (alookup t.users w).isSome := by
  induction us with
  | nil => exact fun _ _ => rfl
  | cons u rest ih =>
    intro t st
    rw [sendToUsers, ih]
    exact enqueue_lookup_isSome t _ [u] w

/-- The status surviving the private-message fan-out loop is the one built
for the last-iterated recipient. -/
theorem sendToUsers_fst (sender msgData : Str) (us : List Str) (ulast : Str)
    (h : us.getLast? = some ulast) : ∀ (t : Table) (st : Status),
    (sendToUsers t sender msgData st us).1
      = .msg 200 "success".toList false sender [] ulast msgData := by
  induction us with
  | nil => exact Option.noConfusion h
  | cons u rest ih =>
    intro t st
    rw [sendToUsers]
    cases rest with
    | nil =>
      rw [sendToUsers]
      rw [List.getLast?_singleton] at h
      injection h with h
      rw [← h]
    | cons v rest2 =>
      exact ih (by rwa [List.getLast?_cons_cons] at h) _ _

/-- C8: on a successful private message whose sender is not among the
(all-registered) recipients, the sender's mailbox gains exactly one extra
status, and it is the MessageStatus built for the last-iterated recipient —
its user field is that recipient's name, not the sender's. -/
theorem c8_sender_copy_last (t : Table) (addr : Nat) (m : UsersMsg) (sender ulast : Str)
    (su : User)
    (hconns : alookup t.conns addr = some sender)
    (hu : alookup t.users sender = some su)
    (hcnt : (m.users.length : Int) = m.user_num)
    (hall : ∀ u ∈ m.users, has_username t u = true)
    (hns : sender ∉ m.users)
    (hl : m.users.getLast? = some ulast) :
    ∃ t2, usersMsgExecute t addr m = some (none, t2) ∧
      mailboxOf t2 sender = mailboxOf t sender
        ++ [.msg 200 "success".toList false sender [] ulast m.message] := by
  rcases hse : sendToUsers t sender m.message (.base 200 "success".toList) m.users
    with ⟨st2, t1⟩
  have hst2 : st2 = .msg 200 "success".toList false sender [] ulast m.message := by
    have := congrArg Prod.fst hse
    rw [sendToUsers_fst sender m.message m.users ulast hl] at this
    exact this.symm
  have ht1 : t1 = (sendToUsers t sender m.message (.base 200 "success".toList) m.users).2 :=
    (congrArg Prod.snd hse).symm
  refine ⟨t1.enqueue_message st2 [sender], ?_, ?_⟩
  · simp only [usersMsgExecute, has_addr, hconns, Option.isSome_some, hcnt, ne_eq,
      not_true_eq_false, if_false, get_username_by_addr,
      valid_usernames_ok t sender m.message m.users hall, Status.code, hse, hns,
      if_true, if_false]
    simp [hns]
  · have hs1 : (alookup t1.users sender).isSome = true := by
      rw [ht1, sendToUsers_lookup_isSome, hu]
      rfl
    obtain ⟨u1, hu1⟩ := Option.isSome_iff_exists.mp hs1
    rw [mailbox_enqueue_single_self t1 st2 hu1, hst2, ht1,
      sendToUsers_mailbox_not_mem sender m.message m.users sender hns]

/-- Witness for C8: alice privately messages bob alone; alice's own copy is
the status whose user field is bob. -/
theorem c8_sender_copy_last_witness :
    ∃ t2, usersMsgExecute wTable 0 ⟨1, [wBob], ['H', 'i']⟩ = some (none, t2) ∧
      mailboxOf t2 wAlice = mailboxOf wTable wAlice
        ++ [.msg 200 "success".toList false wAlice [] wBob ['H', 'i']] :=
  c8_sender_copy_last wTable 0 ⟨1, [wBob], ['H', 'i']⟩ wAlice wBob (mkUser wAlice 0)
    (by decide) (by decide) rfl (by decide) (by decide) rfl

/-- A registry in which bob (address 1) was registered before alice
(address 0); no rooms. -/
def wOverlap : Table :=
  ⟨[], [(wBob, mkUser wBob 1), (wAlice, mkUser wAlice 0)], [(1, wBob), (0, wAlice)]⟩

/-- C4 counterexample: registering the name bob from address 0 — the name is
taken (by bob, at address 1) and the address is taken (by alice) — returns
402, although a registered user already has the requesting address and the
claim demands 401 for that case. -/
theorem c4_priority_cex :
    validNameFormat wBob = true ∧
    (∃ p ∈ wOverlap.users, (p.2 : User).addr = 0) ∧
    (user_registration wOverlap wBob 0).1.code = 402 ∧
    (user_registration wOverlap wBob 0).1.code ≠ 401 := by
  refine ⟨by decide, ⟨(wAlice, mkUser wAlice 0), by decide, rfl⟩, by decide, by decide⟩

/-- `Table.__valid_registration` as described by the amended claim: the scan
is decided by the first registered user matching either condition. -/
def regScanSpec (username : Str) (addr : Nat) (l : List (Str × User)) : Status :=
  match l.find? (fun p => decide (p.2.addr = addr) || decide (p.2.name = username)) with
  | some p =>
    if p.2.addr = addr then .registration 401 "Duplicated registration".toList username
    else .registration 402 "Username existed".toList username
  | none => .registration 200 "success".toList username

/-- `Table.user_registration` as described by the amended claim: 403 on a
bad name, otherwise the first user in insertion order holding the address
or the name decides 401 (address match) versus 402 (name match, hence a
different address); with no such user, 200 and the two insertions; no
mutation on any non-200 outcome. -/
def regSpec (t : Table) (username : Str) (addr : Nat) : Status × Table :=
  if validNameFormat username = false then (.base 403 "Invalid username format".toList, t)
  else
    match regScanSpec username addr t.users with
    | .registration 200 m u =>
      (.registration 200 m u,
       { t with users := dinsert username (mkUser username addr) t.users,
                conns := dinsert addr username t.conns })
    | st => (st, t)

theorem regScan_eq_spec (username : Str) (addr : Nat) (l : List (Str × User)) :
    regScan username addr l = regScanSpec username addr l := by
  induction l with
  | nil => rfl
  | cons p rest ih =>
    obtain ⟨k, u⟩ := p
    by_cases ha : u.addr = addr
    · rw [regScan, if_pos ha]
      rw [regScanSpec, List.find?_cons_of_pos _ (by simp [ha])]
      simp [ha]
    · by_cases hn : u.name = username
      · rw [regScan, if_neg ha, if_pos hn]
        rw [regScanSpec, List.find?_cons_of_pos _ (by simp [hn])]
        simp [ha]
      · rw [regScan, if_neg ha, if_neg hn, ih]
        rw [regScanSpec, regScanSpec, List.find?_cons_of_neg _ (by simp [ha, hn])]

/-! Lemmas about digits, splitting and joining, feeding the codec
round-trip proofs. -/

theorem digitChar_isDigit (d : Nat) (h : d < 10) : (digitChar d).isDigit = true := by
  interval_cases d <;> rfl

theorem charDigit_digitChar (d : Nat) (h : d < 10) : charDigit (digitChar d) = d := by
  interval_cases d <;> rfl

theorem natToStrAux_three (f n : Nat) (h1 : 100 ≤ n) (h2 : n ≤ 999) :
    natToStrAux (f + 3) n
      = [digitChar (n / 100), digitChar (n / 10 % 10), digitChar (n % 10)] := by
  have e1 : natToStrAux (f + 3) n = natToStrAux (f + 2) (n / 10) ++ [digitChar (n % 10)] := by
    rw [natToStrAux, if_neg (by omega)]
  have e2 : natToStrAux (f + 2) (n / 10)
      = natToStrAux (f + 1) (n / 10 / 10) ++ [digitChar (n / 10 % 10)] := by
    rw [natToStrAux, if_neg (by omega)]
  have e3 : natToStrAux (f + 1) (n / 10 / 10) = [digitChar (n / 10 / 10)] := by
    rw [natToStrAux, if_pos (by omega)]
  rw [e1, e2, e3, Nat.div_div_eq_div_mul]
  rfl

theorem natToStr_three (n : Nat) (h1 : 100 ≤ n) (h2 : n ≤ 999) :
    natToStr n = [digitChar (n / 100), digitChar (n / 10 % 10), digitChar (n % 10)] := by
  rw [natToStr, show n + 1 = (n - 2) + 3 by omega]
  exact natToStrAux_three (n - 2) n h1 h2

theorem length_natToStr_three (n : Nat) (h1 : 100 ≤ n) (h2 : n ≤ 999) :
    (natToStr n).length = 3 := by
  rw [natToStr_three n h1 h2]
  rfl

theorem digitChar_not_ws (d : Nat) (h : d < 10) : pyWhitespace (digitChar d) = false := by
  interval_cases d <;> decide

theorem digitChar_ne_plus (d : Nat) (h : d < 10) : ¬ digitChar d = '+' := by
  interval_cases d <;> decide

theorem digitChar_ne_minus (d : Nat) (h : d < 10) : ¬ digitChar d = '-' := by
  interval_cases d <;> decide

theorem digitChar_ne_under (d : Nat) (h : d < 10) : ¬ digitChar d = '_' := by
  interval_cases d <;> decide

theorem dropWhile_false_of (p : Char → Bool) (s : Str) (h : ∀ ch ∈ s, p ch = false) :
    s.dropWhile p = s := by
  cases s with
  | nil => rfl
  | cons a t =>
    rw [List.dropWhile_cons, h a (List.mem_cons_self _ _)]
    simp

theorem pyStrip_eq_self (s : Str) (h : ∀ ch ∈ s, pyWhitespace ch = false) : pyStrip s = s := by
  rw [pyStrip, dropWhile_false_of _ s h,
    dropWhile_false_of _ s.reverse (fun ch hch => h ch (List.mem_reverse.mp hch)),
    List.reverse_reverse]

theorem intToStr_natCast (n : Nat) : intToStr (n : Int) = natToStr n := by
  have h : ((n : Int)).toNat = n := by omega
  rw [intToStr, if_neg (by omega), h]

theorem splitCh_ne_nil (sep : Char) (s : Str) : splitCh sep s ≠ [] := by
  cases s with
  | nil => exact fun h => List.noConfusion h
  | cons c rest =>
    rw [splitCh]
    cases splitCh sep rest with
    | nil => exact fun h => List.noConfusion h
    | cons p ps =>
      by_cases hc : c = sep <;> simp [hc]

theorem splitCh_no_sep (sep : Char) (s : Str) (h : sep ∉ s) : splitCh sep s = [s] := by
  induction s with
  | nil => rfl
  | cons c rest ih =>
    rw [List.mem_cons, not_or] at h
    have hc : ¬(c = sep) := fun he => h.1 he.symm
    rw [splitCh, ih h.2]
    simp [hc]

theorem pyInt_natToStr (n : Nat) (h1 : 100 ≤ n) (h2 : n ≤ 999) :
    pyInt (natToStr n) = some (n : Int) := by
  have e1 : n / 100 < 10 := by omega
  have e2 : n / 10 % 10 < 10 := by omega
  have e3 : n % 10 < 10 := by omega
  rw [natToStr_three n h1 h2]
  have hws : ∀ ch ∈ [digitChar (n / 100), digitChar (n / 10 % 10), digitChar (n % 10)],
      pyWhitespace ch = false := by
    intro ch hch
    rcases List.mem_cons.mp hch with he | hch
    · exact he ▸ digitChar_not_ws _ e1
    rcases List.mem_cons.mp hch with he | hch
    · exact he ▸ digitChar_not_ws _ e2
    rcases List.mem_cons.mp hch with he | hch
    · exact he ▸ digitChar_not_ws _ e3
    · exact absurd hch (List.not_mem_nil ch)
  have hsign : pySign [digitChar (n / 100), digitChar (n / 10 % 10), digitChar (n % 10)]
      = (false, [digitChar (n / 100), digitChar (n / 10 % 10), digitChar (n % 10)]) := by
    rw [pySign, if_neg (digitChar_ne_plus _ e1), if_neg (digitChar_ne_minus _ e1)]
  have hus : ('_' : Char)
      ∉ [digitChar (n / 100), digitChar (n / 10 % 10), digitChar (n % 10)] := by
    intro hch
    rcases List.mem_cons.mp hch with he | hch
    · exact digitChar_ne_under _ e1 he.symm
    rcases List.mem_cons.mp hch with he | hch
    · exact digitChar_ne_under _ e2 he.symm
    rcases List.mem_cons.mp hch with he | hch
    · exact digitChar_ne_under _ e3 he.symm
    · exact absurd hch (List.not_mem_nil _)
  simp only [pyInt]
  rw [pyStrip_eq_self _ hws, hsign]
  dsimp only
  rw [splitCh_no_sep '_' _ hus]
  rw [if_pos (by
    simp [digitChar_isDigit _ e1, digitChar_isDigit _ e2, digitChar_isDigit _ e3])]
  simp only [List.flatten_cons, List.flatten_nil, List.append_nil, List.foldl,
    charDigit_digitChar _ e1, charDigit_digitChar _ e2, charDigit_digitChar _ e3,
    Bool.false_eq_true, if_false]
  congr 1
  omega

theorem splitCh_sep_append (sep : Char) (a b : Str) (h : sep ∉ a) :
    splitCh sep (a ++ sep :: b) = a :: splitCh sep b := by
  induction a with
  | nil =>
    rw [List.nil_append, splitCh]
    cases hs : splitCh sep b with
    | nil => exact absurd hs (splitCh_ne_nil sep b)
    | cons p ps => simp
  | cons c a2 ih =>
    rw [List.mem_cons, not_or] at h
    have hc : ¬(c = sep) := fun he => h.1 he.symm
    rw [List.cons_append, splitCh, ih h.2]
    simp [hc]

theorem joinCh_cons_cons (sep : Char) (x y : Str) (rest : List Str) :
    joinCh sep (x :: y :: rest) = x ++ sep :: joinCh sep (y :: rest) := rfl

theorem splitCh_joinCh (sep : Char) (l : List Str) (hne : l ≠ [])
    (h : ∀ x ∈ l, sep ∉ x) : splitCh sep (joinCh sep l) = l := by
  induction l with
  | nil => exact absurd rfl hne
  | cons x rest ih =>
    cases rest with
    | nil => exact splitCh_no_sep sep x (h x (List.mem_cons_self _ _))
    | cons y rest2 =>
      rw [joinCh_cons_cons, splitCh_sep_append sep x _ (h x (List.mem_cons_self _ _)),
        ih (by simp) (fun z hz => h z (List.mem_cons_of_mem _ hz))]

theorem mem_joinCh {c : Char} {sep : Char} {l : List Str} (h : c ∈ joinCh sep l) :
    c = sep ∨ ∃ x ∈ l, c ∈ x := by
  induction l with
  | nil => exact absurd h (List.not_mem_nil c)
  | cons x rest ih =>
    cases rest with
    | nil => exact Or.inr ⟨x, List.mem_cons_self _ _, h⟩
    | cons y rest2 =>
      rw [joinCh_cons_cons, List.mem_append] at h
      rcases h with hx | hs
      · exact Or.inr ⟨x, List.mem_cons_self _ _, hx⟩
      · rcases List.mem_cons.mp hs with hc | hj
        · exact Or.inl hc
        · rcases ih hj with hc | ⟨z, hz, hcz⟩
          · exact Or.inl hc
          · exact Or.inr ⟨z, List.mem_cons_of_mem _ hz, hcz⟩

theorem interior_wrap (b : Str) : interior ('$' :: (b ++ ['$'])) = b := by
  rw [interior, pySlice]
  simp only [List.length_cons, List.length_append, List.length_singleton, List.drop_succ_cons,
    List.drop_zero]
  rw [show b.length + ([].length + 1) + 1 - 1 - 1 = b.length by simp]
  exact List.take_left' rfl

/-- Decomposition of a response interior: three code digits, the five
command-code characters, then the variant payload. -/
theorem parse_preamble (c : Nat) (h1 : 100 ≤ c) (h2 : c ≤ 999) (cc rest : Str)
    (hcc : cc.length = 5) :
    pyInt (pySlice (natToStr c ++ (cc ++ rest)) 0 3) = some (c : Int) ∧
    pySlice (natToStr c ++ (cc ++ rest)) 3 8 = cc ∧
    (natToStr c ++ (cc ++ rest)).drop 8 = rest ∧
    (natToStr c ++ (cc ++ rest)).length = 8 + rest.length := by
  have hl3 : (natToStr c).length = 3 := length_natToStr_three c h1 h2
  have hd3 : (natToStr c ++ (cc ++ rest)).drop 3 = cc ++ rest := by
    rw [← hl3]
    exact List.drop_left _ _
  refine ⟨?_, ?_, ?_, ?_⟩
  · rw [pySlice, List.drop_zero, show (3 : Nat) - 0 = 3 from rfl, List.take_left' hl3,
      pyInt_natToStr c h1 h2]
  · rw [pySlice, hd3, show (8 : Nat) - 3 = 5 from rfl, List.take_left' hcc]
  · rw [show (8 : Nat) = 3 + 5 from rfl, ← List.drop_drop, hd3, List.drop_left' hcc]
  · rw [List.length_append, List.length_append, hl3, hcc]
    omega

theorem roundtrip_base (c : Nat) (m : Str) (h1 : 100 ≤ c) (h2 : c ≤ 999) :
    parseStatus (interior (Status.base c m).to_bytes) = some (.base c m) := by
  have hi : interior (Status.base c m).to_bytes = natToStr c ++ m := by
    rw [show (Status.base c m).to_bytes = '$' :: intToStr c ++ m ++ ['$'] from rfl,
      intToStr_natCast]
    exact interior_wrap _
  rw [hi, parseStatus, pySlice, List.drop_zero, show (3 : Nat) - 0 = 3 from rfl,
    List.take_left' (length_natToStr_three c h1 h2), pyInt_natToStr c h1 h2]
  have hd : (natToStr c ++ m).drop 3 = m := by
    rw [← length_natToStr_three c h1 h2]
    exact List.drop_left _ _
  rw [Option.map_some', hd]

theorem roundtrip_registration (c : Nat) (m u : Str) (h1 : 100 ≤ c) (h2 : c ≤ 999)
    (hu : '#' ∉ u) (hm : '#' ∉ m) :
    parseRegistration (interior (Status.registration c m u).to_bytes)
      = some (.registration c m u) := by
  have hi0 : interior (Status.registration c m u).to_bytes
      = natToStr c ++ "00001".toList ++ u ++ '#' :: m := by
    rw [show (Status.registration c m u).to_bytes
        = '$' :: intToStr c ++ "00001".toList ++ u ++ '#' :: m ++ ['$'] from rfl,
      intToStr_natCast]
    exact interior_wrap _
  have hi : interior (Status.registration c m u).to_bytes
      = natToStr c ++ ("00001".toList ++ (u ++ '#' :: m)) := by
    rw [hi0]
    simp [List.append_assoc]
  obtain ⟨hp1, hp2, hp3, hp4⟩ :=
    parse_preamble c h1 h2 "00001".toList (u ++ '#' :: m) rfl
  have hsplit : splitCh '#' (u ++ '#' :: m) = [u, m] := by
    rw [splitCh_sep_append '#' u m hu, splitCh_no_sep '#' m hm]
  have hlen : ¬ ((natToStr c ++ ("00001".toList ++ (u ++ '#' :: m))).length < 9) := by
    rw [hp4]
    simp only [List.length_append, List.length_cons]
    omega
  rw [hi, parseRegistration, if_neg hlen, hp1]
  dsimp only
  rw [if_neg (by rw [hp2]; simp), hp3, hsplit]

theorem roundtrip_join (c : Nat) (m r u : Str) (cr : Bool) (h1 : 100 ≤ c) (h2 : c ≤ 999)
    (hr : r.length = 20) (hu : '#' ∉ u) (hm : '#' ∉ m) :
    parseJoin (interior (Status.join c m r u cr).to_bytes) = some (.join c m r u cr) := by
  have hi0 : interior (Status.join c m r u cr).to_bytes
      = natToStr c ++ "00002".toList ++ (if cr then '1' else '0') :: r ++ u ++ '#' :: m := by
    rw [show (Status.join c m r u cr).to_bytes
        = '$' :: intToStr c ++ "00002".toList ++ (if cr then '1' else '0') :: r ++ u
            ++ '#' :: m ++ ['$'] from rfl,
      intToStr_natCast]
    exact interior_wrap _
  have hi : interior (Status.join c m r u cr).to_bytes
      = natToStr c
          ++ ("00002".toList ++ ((if cr then '1' else '0') :: (r ++ (u ++ '#' :: m)))) := by
    rw [hi0]
    simp [List.append_assoc]
  obtain ⟨hp1, hp2, hp3, hp4⟩ :=
    parse_preamble c h1 h2 "00002".toList ((if cr then '1' else '0') :: (r ++ (u ++ '#' :: m)))
      rfl
  set s := natToStr c
      ++ ("00002".toList ++ ((if cr then '1' else '0') :: (r ++ (u ++ '#' :: m)))) with hs
  have hflag : pySlice s 8 9 = [if cr then '1' else '0'] := by
    rw [pySlice, hp3]
    rfl
  have h9 : s.drop 9 = r ++ (u ++ '#' :: m) := by
    rw [show (9 : Nat) = 8 + 1 from rfl, ← List.drop_drop, hp3]
    rfl
  have hroom : pySlice s 9 29 = r := by
    rw [pySlice, h9, show (29 : Nat) - 9 = 20 from rfl, List.take_left' hr]
  have h29 : s.drop 29 = u ++ '#' :: m := by
    rw [show (29 : Nat) = 9 + 20 from rfl, ← List.drop_drop, h9, List.drop_left' hr]
  have hsplit : splitCh '#' (u ++ '#' :: m) = [u, m] := by
    rw [splitCh_sep_append '#' u m hu, splitCh_no_sep '#' m hm]
  have hlen : ¬ (s.length < 29) := by
    rw [hs, hp4]
    simp only [List.length_cons, List.length_append, hr]
    omega
  rw [hi, parseJoin, if_neg hlen, hp1]
  dsimp only
  rw [if_neg (by rw [hp2]; simp), h29, hsplit, hroom, hflag]
  cases cr <;> simp

theorem roundtrip_msg_room (c : Nat) (m se r d : Str) (h1 : 100 ≤ c) (h2 : c ≤ 999)
    (hse20 : se.length = 20) (hse : '#' ∉ se) (hr : '#' ∉ r) (hd : '#' ∉ d)
    (hm : '#' ∉ m) :
    parseMessage (interior (Status.msg c m true se r [] d).to_bytes)
      = some (.msg c m true se r [] d) := by
  have hi0 : interior (Status.msg c m true se r [] d).to_bytes
      = natToStr c ++ "00003".toList ++ '1' :: se ++ '#' :: r ++ '#' :: d ++ '#' :: m := by
    rw [show (Status.msg c m true se r [] d).to_bytes
        = '$' :: intToStr c ++ "00003".toList ++ '1' :: se ++ '#' :: r ++ '#' :: d
            ++ '#' :: m ++ ['$'] from rfl,
      intToStr_natCast]
    exact interior_wrap _
  have hi : interior (Status.msg c m true se r [] d).to_bytes
      = natToStr c
          ++ ("00003".toList ++ ('1' :: (se ++ '#' :: (r ++ '#' :: (d ++ '#' :: m))))) := by
    rw [hi0]
    simp [List.append_assoc]
  obtain ⟨hp1, hp2, hp3, hp4⟩ :=
    parse_preamble c h1 h2 "00003".toList ('1' :: (se ++ '#' :: (r ++ '#' :: (d ++ '#' :: m))))
      rfl
  set s := natToStr c
      ++ ("00003".toList ++ ('1' :: (se ++ '#' :: (r ++ '#' :: (d ++ '#' :: m))))) with hs
  have hflag : pySlice s 8 9 = ['1'] := by
    rw [pySlice, hp3]
    rfl
  have h9 : s.drop 9 = se ++ '#' :: (r ++ '#' :: (d ++ '#' :: m)) := by
    rw [show (9 : Nat) = 8 + 1 from rfl, ← List.drop_drop, hp3]
    rfl
  have hsplit : splitCh '#' (se ++ '#' :: (r ++ '#' :: (d ++ '#' :: m))) = [se, r, d, m] := by
    rw [splitCh_sep_append '#' se _ hse, splitCh_sep_append '#' r _ hr,
      splitCh_sep_append '#' d _ hd, splitCh_no_sep '#' m hm]
  have hlen : ¬ (s.length < 14) := by
    rw [hs, hp4]
    simp only [List.length_cons, List.length_append, hse20]
    omega
  rw [hi, parseMessage, if_neg hlen, hp1]
  dsimp only
  rw [hflag, if_pos rfl, if_neg (by rw [hp2]; simp), h9, hsplit]

theorem roundtrip_msg_priv (c : Nat) (m se u d : Str) (h1 : 100 ≤ c) (h2 : c ≤ 999)
    (hse20 : se.length = 20) (hse : '#' ∉ se) (hu : '#' ∉ u) (hd : '#' ∉ d)
    (hm : '#' ∉ m) :
    parseMessage (interior (Status.msg c m false se [] u d).to_bytes)
      = some (.msg c m false se [] u d) := by
  have hi0 : interior (Status.msg c m false se [] u d).to_bytes
      = natToStr c ++ "00004".toList ++ '0' :: se ++ '#' :: u ++ '#' :: d ++ '#' :: m := by
    rw [show (Status.msg c m false se [] u d).to_bytes
        = '$' :: intToStr c ++ "00004".toList ++ '0' :: se ++ '#' :: u ++ '#' :: d
            ++ '#' :: m ++ ['$'] from rfl,
      intToStr_natCast]
    exact interior_wrap _
  have hi : interior (Status.msg c m false se [] u d).to_bytes
      = natToStr c
          ++ ("00004".toList ++ ('0' :: (se ++ '#' :: (u ++ '#' :: (d ++ '#' :: m))))) := by
    rw [hi0]
    simp [List.append_assoc]
  obtain ⟨hp1, hp2, hp3, hp4⟩ :=
    parse_preamble c h1 h2 "00004".toList ('0' :: (se ++ '#' :: (u ++ '#' :: (d ++ '#' :: m))))
      rfl
  set s := natToStr c
      ++ ("00004".toList ++ ('0' :: (se ++ '#' :: (u ++ '#' :: (d ++ '#' :: m))))) with hs
  have hflag : pySlice s 8 9 = ['0'] := by
    rw [pySlice, hp3]
    rfl
  have h9 : s.drop 9 = se ++ '#' :: (u ++ '#' :: (d ++ '#' :: m)) := by
    rw [show (9 : Nat) = 8 + 1 from rfl, ← List.drop_drop, hp3]
    rfl
  have hsplit : splitCh '#' (se ++ '#' :: (u ++ '#' :: (d ++ '#' :: m))) = [se, u, d, m] := by
    rw [splitCh_sep_append '#' se _ hse, splitCh_sep_append '#' u _ hu,
      splitCh_sep_append '#' d _ hd, splitCh_no_sep '#' m hm]
  have hlen : ¬ (s.length < 14) := by
    rw [hs, hp4]
    simp only [List.length_cons, List.length_append, hse20]
    omega
  rw [hi, parseMessage, if_neg hlen, hp1]
  dsimp only
  rw [hflag, if_neg (by decide), if_neg (by rw [hp2]; simp), h9, hsplit]

theorem roundtrip_disconnect_none (c : Nat) (m u r : Str) (h1 : 100 ≤ c) (h2 : c ≤ 999)
    (hu : '#' ∉ u) (hr : '#' ∉ r) (hm : '#' ∉ m) :
    parseDisconnect (interior (Status.disconnect c m u r none).to_bytes)
      = some (.disconnect c m u r none) := by
  have hi0 : interior (Status.disconnect c m u r none).to_bytes
      = natToStr c ++ "00010".toList ++ u ++ '#' :: '#' :: r ++ '#' :: m := by
    rw [show (Status.disconnect c m u r none).to_bytes
        = '$' :: intToStr c ++ "00010".toList ++ u ++ '#' :: '#' :: r ++ '#' :: m ++ ['$']
        from rfl,
      intToStr_natCast]
    exact interior_wrap _
  have hi : interior (Status.disconnect c m u r none).to_bytes
      = natToStr c ++ ("00010".toList ++ (u ++ '#' :: '#' :: (r ++ '#' :: m))) := by
    rw [hi0]
    simp [List.append_assoc]
  obtain ⟨hp1, hp2, hp3, hp4⟩ :=
    parse_preamble c h1 h2 "00010".toList (u ++ '#' :: '#' :: (r ++ '#' :: m)) rfl
  set s := natToStr c ++ ("00010".toList ++ (u ++ '#' :: '#' :: (r ++ '#' :: m))) with hs
  have hsplit : splitCh '#' (u ++ '#' :: '#' :: (r ++ '#' :: m)) = [u, [], r, m] := by
    rw [splitCh_sep_append '#' u _ hu,
      show ('#' :: (r ++ '#' :: m) : Str) = [] ++ '#' :: (r ++ '#' :: m) from rfl,
      splitCh_sep_append '#' [] _ (by simp),
      splitCh_sep_append '#' r _ hr, splitCh_no_sep '#' m hm]
  have hlen : ¬ (s.length < 11) := by
    rw [hs, hp4]
    simp only [List.length_cons, List.length_append]
    omega
  rw [hi, parseDisconnect, if_neg hlen, hp1]
  dsimp only
  rw [if_neg (by rw [hp2]; simp), hp3, hsplit]
  rfl

theorem roundtrip_disconnect_some (c : Nat) (m u r ad : Str) (h1 : 100 ≤ c) (h2 : c ≤ 999)
    (hu : '#' ∉ u) (had : '#' ∉ ad) (hadne : ad ≠ []) (hr : '#' ∉ r) (hm : '#' ∉ m) :
    parseDisconnect (interior (Status.disconnect c m u r (some ad)).to_bytes)
      = some (.disconnect c m u r (some ad)) := by
  have hi0 : interior (Status.disconnect c m u r (some ad)).to_bytes
      = natToStr c ++ "00010".toList ++ u ++ '#' :: ad ++ '#' :: r ++ '#' :: m := by
    rw [show (Status.disconnect c m u r (some ad)).to_bytes
        = '$' :: intToStr c ++ "00010".toList ++ u ++ '#' :: ad ++ '#' :: r ++ '#' :: m ++ ['$']
        from rfl,
      intToStr_natCast]
    exact interior_wrap _
  have hi : interior (Status.disconnect c m u r (some ad)).to_bytes
      = natToStr c ++ ("00010".toList ++ (u ++ '#' :: (ad ++ '#' :: (r ++ '#' :: m)))) := by
    rw [hi0]
    simp [List.append_assoc]
  obtain ⟨hp1, hp2, hp3, hp4⟩ :=
    parse_preamble c h1 h2 "00010".toList (u ++ '#' :: (ad ++ '#' :: (r ++ '#' :: m))) rfl
  set s := natToStr c ++ ("00010".toList ++ (u ++ '#' :: (ad ++ '#' :: (r ++ '#' :: m))))
    with hs
  have hsplit : splitCh '#' (u ++ '#' :: (ad ++ '#' :: (r ++ '#' :: m))) = [u, ad, r, m] := by
    rw [splitCh_sep_append '#' u _ hu, splitCh_sep_append '#' ad _ had,
      splitCh_sep_append '#' r _ hr, splitCh_no_sep '#' m hm]
  have hlen : ¬ (s.length < 11) := by
    rw [hs, hp4]
    simp only [List.length_cons, List.length_append]
    omega
  rw [hi, parseDisconnect, if_neg hlen, hp1]
  dsimp only
  rw [if_neg (by rw [hp2]; simp), hp3, hsplit]
  dsimp only
  rw [if_neg hadne]

theorem roundtrip_leave (c : Nat) (m r u : Str) (h1 : 100 ≤ c) (h2 : c ≤ 999)
    (hr : r.length = 20) (hu : '#' ∉ u) (hm : '#' ∉ m) :
    parseLeave (interior (Status.leave c m r u).to_bytes) = some (.leave c m r u) := by
  have hi0 : interior (Status.leave c m r u).to_bytes
      = natToStr c ++ "00005".toList ++ r ++ u ++ '#' :: m := by
    rw [show (Status.leave c m r u).to_bytes
        = '$' :: intToStr c ++ "00005".toList ++ r ++ u ++ '#' :: m ++ ['$'] from rfl,
      intToStr_natCast]
    exact interior_wrap _
  have hi : interior (Status.leave c m r u).to_bytes
      = natToStr c ++ ("00005".toList ++ (r ++ (u ++ '#' :: m))) := by
    rw [hi0]
    simp [List.append_assoc]
  obtain ⟨hp1, hp2, hp3, hp4⟩ :=
    parse_preamble c h1 h2 "00005".toList (r ++ (u ++ '#' :: m)) rfl
  set s := natToStr c ++ ("00005".toList ++ (r ++ (u ++ '#' :: m))) with hs
  have hroom : pySlice s 8 28 = r := by
    rw [pySlice, hp3, show (28 : Nat) - 8 = 20 from rfl, List.take_left' hr]
  have h28 : s.drop 28 = u ++ '#' :: m := by
    rw [show (28 : Nat) = 8 + 20 from rfl, ← List.drop_drop, hp3, List.drop_left' hr]
  have hsplit : splitCh '#' (u ++ '#' :: m) = [u, m] := by
    rw [splitCh_sep_append '#' u m hu, splitCh_no_sep '#' m hm]
  have hlen : ¬ (s.length < 11) := by
    rw [hs, hp4]
    simp only [List.length_cons, List.length_append, hr]
    omega
  rw [hi, parseLeave, if_neg hlen, hp1]
  dsimp only
  rw [if_neg (by rw [hp2]; simp), h28, hsplit, hroom]

theorem roundtrip_roomUserList (c : Nat) (m r : Str) (ul : List Str) (h1 : 100 ≤ c)
    (h2 : c ≤ 999) (hr : r.length = 20) (hulne : ul ≠ [])
    (hul : ∀ x ∈ ul, '&' ∉ x ∧ '#' ∉ x) (hm : '#' ∉ m) :
    parseRoomUserList (interior (Status.roomUserList c m r ul).to_bytes)
      = some (.roomUserList c m r ul) := by
  have hi0 : interior (Status.roomUserList c m r ul).to_bytes
      = natToStr c ++ "00006".toList ++ r ++ joinCh '&' ul ++ '#' :: m := by
    rw [show (Status.roomUserList c m r ul).to_bytes
        = '$' :: intToStr c ++ "00006".toList ++ r ++ joinCh '&' ul ++ '#' :: m ++ ['$']
        from rfl,
      intToStr_natCast]
    exact interior_wrap _
  have hi : interior (Status.roomUserList c m r ul).to_bytes
      = natToStr c ++ ("00006".toList ++ (r ++ (joinCh '&' ul ++ '#' :: m))) := by
    rw [hi0]
    simp [List.append_assoc]
  obtain ⟨hp1, hp2, hp3, hp4⟩ :=
    parse_preamble c h1 h2 "00006".toList (r ++ (joinCh '&' ul ++ '#' :: m)) rfl
  set s := natToStr c ++ ("00006".toList ++ (r ++ (joinCh '&' ul ++ '#' :: m))) with hs
  have hroom : pySlice s 8 28 = r := by
    rw [pySlice, hp3, show (28 : Nat) - 8 = 20 from rfl, List.take_left' hr]
  have h28 : s.drop 28 = joinCh '&' ul ++ '#' :: m := by
    rw [show (28 : Nat) = 8 + 20 from rfl, ← List.drop_drop, hp3, List.drop_left' hr]
  have hnj : '#' ∉ joinCh '&' ul := by
    intro hmem
    rcases mem_joinCh hmem with hc | ⟨x, hx, hcx⟩
    · exact absurd hc (by decide)
    · exact (hul x hx).2 hcx
  have hsplit : splitCh '#' (joinCh '&' ul ++ '#' :: m) = [joinCh '&' ul, m] := by
    rw [splitCh_sep_append '#' _ m hnj, splitCh_no_sep '#' m hm]
  have hlen : ¬ (s.length < 11) := by
    rw [hs, hp4]
    simp only [List.length_cons, List.length_append, hr]
    omega
  rw [hi, parseRoomUserList, if_neg hlen, hp1]
  dsimp only
  rw [if_neg (by rw [hp2]; simp), h28, hsplit, hroom]
  dsimp only
  rw [splitCh_joinCh '&' ul hulne (fun x hx => (hul x hx).1)]

theorem joinCh_length_head (sep : Char) (x : Str) (rest : List Str) :
    x.length ≤ (joinCh sep (x :: rest)).length := by
  cases rest with
  | nil => exact Nat.le_refl _
  | cons y r2 =>
    rw [joinCh_cons_cons]
    simp only [List.length_append, List.length_cons]
    omega

theorem roundtrip_listRoom (c : Nat) (m : Str) (rl : List Str) (h1 : 100 ≤ c)
    (h2 : c ≤ 999) (hrlne : rl ≠ [])
    (hrl : ∀ x ∈ rl, x.length = 20 ∧ '&' ∉ x ∧ '#' ∉ x) (hm : '#' ∉ m) :
    parseListRoom (interior (Status.listRoom c m rl).to_bytes)
      = some (.listRoom c m rl) := by
  have hi0 : interior (Status.listRoom c m rl).to_bytes
      = natToStr c ++ "00007".toList ++ joinCh '&' rl ++ '#' :: m := by
    rw [show (Status.listRoom c m rl).to_bytes
        = '$' :: intToStr c ++ "00007".toList ++ joinCh '&' rl ++ '#' :: m ++ ['$'] from rfl,
      intToStr_natCast]
    exact interior_wrap _
  have hi : interior (Status.listRoom c m rl).to_bytes
      = natToStr c ++ ("00007".toList ++ (joinCh '&' rl ++ '#' :: m)) := by
    rw [hi0]
    simp [List.append_assoc]
  obtain ⟨hp1, hp2, hp3, hp4⟩ :=
    parse_preamble c h1 h2 "00007".toList (joinCh '&' rl ++ '#' :: m) rfl
  set s := natToStr c ++ ("00007".toList ++ (joinCh '&' rl ++ '#' :: m)) with hs
  have hnj : '#' ∉ joinCh '&' rl := by
    intro hmem
    rcases mem_joinCh hmem with hc | ⟨x, hx, hcx⟩
    · exact absurd hc (by decide)
    · exact (hrl x hx).2.2 hcx
  have hsplit : splitCh '#' (joinCh '&' rl ++ '#' :: m) = [joinCh '&' rl, m] := by
    rw [splitCh_sep_append '#' _ m hnj, splitCh_no_sep '#' m hm]
  have hjlen : 20 ≤ (joinCh '&' rl).length := by
    cases rl with
    | nil => exact absurd rfl hrlne
    | cons x rest =>
      have := joinCh_length_head '&' x rest
      have hx20 : x.length = 20 := (hrl x (List.mem_cons_self _ _)).1
      omega
  have hlen : ¬ (s.length < 11) := by
    rw [hs, hp4]
    simp only [List.length_cons, List.length_append]
    omega
  rw [hi, parseListRoom, if_neg hlen, hp1]
  dsimp only
  rw [if_neg (by rw [hp2]; simp), hp3, hsplit]
  dsimp only
  rw [splitCh_joinCh '&' rl hrlne (fun x hx => (hrl x hx).2.1)]

/-- C5 counterexample: the code-451 RoomUserListStatus that
`ListJoinedUsers.execute` really builds for an unknown room carries the
empty user set; encoding renders the set as the empty join, and decoding
splits that back into a singleton set holding the empty name — the round
trip does not return the original value. -/
theorem c5_roundtrip_cex :
    parseSameVariant
        (.roomUserList 451 "Room not found to list joined users".toList wDevs [])
        (interior (Status.to_bytes
          (.roomUserList 451 "Room not found to list joined users".toList wDevs [])))
      ≠ some (.roomUserList 451 "Room not found to list joined users".toList wDevs []) := by
  decide

/-- C5 amended: decode(encode(x)) = x holds for every variant value x that
is wire-well-formed: a three-digit code; 20-character fixed-width name
fields where the decoder slices; no hash character inside the fields the
decoder recovers by splitting; nonempty list fields with ampersand-free
elements (20 characters each for the room list); a nonempty hash-free
address when one is present; and the empty string in the alternate field a
message status does not use (username on room messages, room on private
ones). -/
theorem c5_roundtrip :
    (∀ (c : Nat) (m : Str), 100 ≤ c → c ≤ 999 →
      parseSameVariant (.base c m) (interior (Status.base c m).to_bytes)
        = some (.base c m)) ∧
    (∀ (c : Nat) (m u : Str), 100 ≤ c → c ≤ 999 → '#' ∉ u → '#' ∉ m →
      parseSameVariant (.registration c m u) (interior (Status.registration c m u).to_bytes)
        = some (.registration c m u)) ∧
    (∀ (c : Nat) (m r u : Str) (cr : Bool), 100 ≤ c → c ≤ 999 → r.length = 20 →
      '#' ∉ u → '#' ∉ m →
      parseSameVariant (.join c m r u cr) (interior (Status.join c m r u cr).to_bytes)
        = some (.join c m r u cr)) ∧
    (∀ (c : Nat) (m : Str) (tr : Bool) (se r u d : Str), 100 ≤ c → c ≤ 999 →
      se.length = 20 → '#' ∉ se → '#' ∉ r → '#' ∉ u → '#' ∉ d → '#' ∉ m →
      (tr = true → u = []) → (tr = false → r = []) →
      parseSameVariant (.msg c m tr se r u d) (interior (Status.msg c m tr se r u d).to_bytes)
        = some (.msg c m tr se r u d)) ∧
    (∀ (c : Nat) (m u r : Str) (a : Option Str), 100 ≤ c → c ≤ 999 →
      '#' ∉ u → '#' ∉ r → '#' ∉ m → (∀ ad, a = some ad → '#' ∉ ad ∧ ad ≠ []) →
      parseSameVariant (.disconnect c m u r a) (interior (Status.disconnect c m u r a).to_bytes)
        = some (.disconnect c m u r a)) ∧
    (∀ (c : Nat) (m r u : Str), 100 ≤ c → c ≤ 999 → r.length = 20 → '#' ∉ u → '#' ∉ m →
      parseSameVariant (.leave c m r u) (interior (Status.leave c m r u).to_bytes)
        = some (.leave c m r u)) ∧
    (∀ (c : Nat) (m r : Str) (ul : List Str), 100 ≤ c → c ≤ 999 → r.length = 20 →
      ul ≠ [] → (∀ x ∈ ul, '&' ∉ x ∧ '#' ∉ x) → '#' ∉ m →
      parseSameVariant (.roomUserList c m r ul) (interior (Status.roomUserList c m r ul).to_bytes)
        = some (.roomUserList c m r ul)) ∧
    (∀ (c : Nat) (m : Str) (rl : List Str), 100 ≤ c → c ≤ 999 → rl ≠ [] →
      (∀ x ∈ rl, x.length = 20 ∧ '&' ∉ x ∧ '#' ∉ x) → '#' ∉ m →
      parseSameVariant (.listRoom c m rl) (interior (Status.listRoom c m rl).to_bytes)
        = some (.listRoom c m rl)) := by
  refine ⟨?_, ?_, ?_, ?_, ?_, ?_, ?_, ?_⟩
  · exact fun c m h1 h2 => roundtrip_base c m h1 h2
  · exact fun c m u h1 h2 hu hm => roundtrip_registration c m u h1 h2 hu hm
  · exact fun c m r u cr h1 h2 hr hu hm => roundtrip_join c m r u cr h1 h2 hr hu hm
  · intro c m tr se r u d h1 h2 hse20 hse hr hu hd hm htr hfa
    cases tr with
    | true =>
      rw [htr rfl]
      exact roundtrip_msg_room c m se r d h1 h2 hse20 hse hr hd hm
    | false =>
      rw [hfa rfl]
      exact roundtrip_msg_priv c m se u d h1 h2 hse20 hse hu hd hm
  · intro c m u r a h1 h2 hu hr hm ha
    cases a with
    | none => exact roundtrip_disconnect_none c m u r h1 h2 hu hr hm
    | some ad =>
      obtain ⟨had, hadne⟩ := ha ad rfl
      exact roundtrip_disconnect_some c m u r ad h1 h2 hu had hadne hr hm
  · exact fun c m r u h1 h2 hr hu hm => roundtrip_leave c m r u h1 h2 hr hu hm
  · exact fun c m r ul h1 h2 hr hne hul hm =>
      roundtrip_roomUserList c m r ul h1 h2 hr hne hul hm
  · exact fun c m rl h1 h2 hne hrl hm => roundtrip_listRoom c m rl h1 h2 hne hrl hm

/-- Witness for C5: the amended round trip evaluated on one concrete value
of each variant (20-character names, three-digit codes). -/
theorem c5_roundtrip_witness :
    parseSameVariant (.base 420 ['n', 'o']) (interior (Status.base 420 ['n', 'o']).to_bytes)
      = some (.base 420 ['n', 'o']) ∧
    parseSameVariant (.registration 200 ['o', 'k'] wAlice)
        (interior (Status.registration 200 ['o', 'k'] wAlice).to_bytes)
      = some (.registration 200 ['o', 'k'] wAlice) ∧
    parseSameVariant (.join 200 ['o', 'k'] wDevs wAlice true)
        (interior (Status.join 200 ['o', 'k'] wDevs wAlice true).to_bytes)
      = some (.join 200 ['o', 'k'] wDevs wAlice true) ∧
    parseSameVariant (.msg 200 ['o', 'k'] true wAlice wDevs [] ['h', 'i'])
        (interior (Status.msg 200 ['o', 'k'] true wAlice wDevs [] ['h', 'i']).to_bytes)
      = some (.msg 200 ['o', 'k'] true wAlice wDevs [] ['h', 'i']) ∧
    parseSameVariant (.disconnect 200 ['o', 'k'] wBob wDevs none)
        (interior (Status.disconnect 200 ['o', 'k'] wBob wDevs none).to_bytes)
      = some (.disconnect 200 ['o', 'k'] wBob wDevs none) ∧
    parseSameVariant (.leave 200 ['o', 'k'] wDevs wAlice)
        (interior (Status.leave 200 ['o', 'k'] wDevs wAlice).to_bytes)
      = some (.leave 200 ['o', 'k'] wDevs wAlice) ∧
    parseSameVariant (.roomUserList 200 ['o', 'k'] wDevs [wAlice, wBob])
        (interior (Status.roomUserList 200 ['o', 'k'] wDevs [wAlice, wBob]).to_bytes)
      = some (.roomUserList 200 ['o', 'k'] wDevs [wAlice, wBob]) ∧
    parseSameVariant (.listRoom 200 ['o', 'k'] [wDevs])
        (interior (Status.listRoom 200 ['o', 'k'] [wDevs]).to_bytes)
      = some (.listRoom 200 ['o', 'k'] [wDevs]) :=
  ⟨c5_roundtrip.1 420 ['n', 'o'] (by omega) (by omega),
   c5_roundtrip.2.1 200 ['o', 'k'] wAlice (by omega) (by omega) (by decide) (by decide),
   c5_roundtrip.2.2.1 200 ['o', 'k'] wDevs wAlice true (by omega) (by omega) (by decide)
     (by decide) (by decide),
   c5_roundtrip.2.2.2.1 200 ['o', 'k'] true wAlice wDevs [] ['h', 'i'] (by omega) (by omega)
     (by decide) (by decide) (by decide) (by decide) (by decide) (by decide)
     (fun _ => rfl) (fun h => Bool.noConfusion h),
   c5_roundtrip.2.2.2.2.1 200 ['o', 'k'] wBob wDevs none (by omega) (by omega)
     (by decide) (by decide) (by decide) (fun ad h => Option.noConfusion h),
   c5_roundtrip.2.2.2.2.2.1 200 ['o', 'k'] wDevs wAlice (by omega) (by omega) (by decide)
     (by decide) (by decide),
   c5_roundtrip.2.2.2.2.2.2.1 200 ['o', 'k'] wDevs [wAlice, wBob] (by omega) (by omega)
     (by decide) (by decide) (by decide) (by decide),
   c5_roundtrip.2.2.2.2.2.2.2 200 ['o', 'k'] [wDevs] (by omega) (by omega) (by decide)
     (by decide) (by decide)⟩

/-- C4 amended: `user_registration` coincides with `regSpec` — 403 exactly
on a malformed name; otherwise the earliest registered user holding the
requesting address or the requested name decides between 401 and 402; with
neither taken, 200 together with the `users` and `conns` insertions; the
registry is unchanged on every rejection. -/
theorem c4_registration_spec (t : Table) (username : Str) (addr : Nat) :
    user_registration t username addr = regSpec t username addr := by
  rw [user_registration, valid_registration, regSpec]
  by_cases hf : validNameFormat username = false
  · rw [if_pos hf, if_pos hf]
    rfl
  · rw [if_neg hf, if_neg hf, regScan_eq_spec]
    rw [regScanSpec]
    cases hfind : List.find?
        (fun p => decide (p.2.addr = addr) || decide (p.2.name = username)) t.users with
    | none => rfl
    | some p =>
      dsimp only
      by_cases ha : p.2.addr = addr
      · rw [if_pos ha]
        simp [Status.code]
      · rw [if_neg ha]
        simp [Status.code]

/-- Witness for C1: alice messages an unknown room, then an unknown user;
each time only her own mailbox gains the single error status. -/
theorem c1_all_or_nothing_witness :
    (∃ rb t2,
      rb ∈ RoomsMsg.rooms ⟨1, [wGhost], ['H', 'i']⟩ ∧ has_room wTable rb = false ∧
      roomsMsgExecute wTable 0 ⟨1, [wGhost], ['H', 'i']⟩ = some (none, t2) ∧
      mailboxOf t2 wAlice = mailboxOf wTable wAlice
        ++ [.msg 497 "Room not found".toList true wAlice rb [] ['H', 'i']] ∧
      (∀ w, w ≠ wAlice → mailboxOf t2 w = mailboxOf wTable w) ∧
      (∀ w s2, s2 ∈ mailboxOf t2 w → s2 ∉ mailboxOf wTable w → s2.code = 497)) ∧
    (∃ ub t2,
      ub ∈ UsersMsg.users ⟨1, [['n', 'o']], ['H', 'i']⟩ ∧ has_username wTable ub = false ∧
      usersMsgExecute wTable 0 ⟨1, [['n', 'o']], ['H', 'i']⟩ = some (none, t2) ∧
      mailboxOf t2 wAlice = mailboxOf wTable wAlice
        ++ [.msg 496 "Message receiver not found".toList false wAlice [] ub ['H', 'i']] ∧
      (∀ w, w ≠ wAlice → mailboxOf t2 w = mailboxOf wTable w) ∧
      (∀ w s2, s2 ∈ mailboxOf t2 w → s2 ∉ mailboxOf wTable w → s2.code = 496)) :=
  ⟨c1_all_or_nothing.1 wTable 0 (("01" ++ String.mk wGhost ++ "Hi").toList)
      ⟨1, [wGhost], ['H', 'i']⟩ wAlice (mkUser wAlice 0)
      (by decide) (by decide) (by decide) (by decide),
   c1_all_or_nothing.2 wTable 0 ⟨1, [['n', 'o']], ['H', 'i']⟩ wAlice (mkUser wAlice 0)
      (by decide) (by decide) rfl (by decide)⟩

/-- Witness for C9: a parsed one-room request (declared count `"01"`,
nonnegative) has a one-element room list, and a concrete room-message
execution (from an unregistered address, the one reply-bearing path with a
nonnegative count) does not reply 410. -/
theorem c9_room_count_nonneg_witness :
    ((RoomsMsg.rooms ⟨1, [wDevs], ['H', 'i']⟩).length : Int)
        = RoomsMsg.room_num ⟨1, [wDevs], ['H', 'i']⟩ ∧
    Status.code (.base 420 (msg420 5)) ≠ 410 :=
  ⟨c9_room_count_nonneg.1 (("01" ++ String.mk wDevs ++ "Hi").toList)
      ⟨1, [wDevs], ['H', 'i']⟩ (by decide) (by decide),
   c9_room_count_nonneg.2.1 wTable 5 (("01" ++ String.mk wDevs ++ "Hi").toList)
      ⟨1, [wDevs], ['H', 'i']⟩ (some (.base 420 (msg420 5))) wTable
      (by decide) (by decide) (by decide) (.base 420 (msg420 5)) rfl⟩

theorem mem_pyDedup {α : Type} [DecidableEq α] {l : List α} {y : α}
    (h : y ∈ pyDedup l) : y ∈ l := by
  have aux : ∀ (l2 acc : List α),
      y ∈ l2.foldl (fun acc x => if x ∈ acc then acc else acc ++ [x]) acc →
      y ∈ acc ∨ y ∈ l2 := by
    intro l2
    induction l2 with
    | nil => exact fun acc h2 => Or.inl h2
    | cons x xs ih =>
      intro acc h2
      rw [List.foldl_cons] at h2
      rcases ih _ h2 with hacc | hxs
      · by_cases hx : x ∈ acc
        · rw [if_pos hx] at hacc
          exact Or.inl hacc
        · rw [if_neg hx] at hacc
          rcases List.mem_append.mp hacc with h1 | h1
          · exact Or.inl h1
          · exact Or.inr (List.mem_cons.mpr (Or.inl (List.mem_singleton.mp h1)))
      · exact Or.inr (List.mem_cons_of_mem _ hxs)
  rcases aux l [] h with h0 | h1
  · exact absurd h0 (List.not_mem_nil y)
  · exact h1

theorem omapM_isSome {α β : Type} (f : α → Option β) (l : List α)
    (h : ∀ x ∈ l, (f x).isSome = true) : (omapM f l).isSome = true := by
  induction l with
  | nil => rfl
  | cons x xs ih =>
    rw [omapM]
    obtain ⟨y, hy⟩ := Option.isSome_iff_exists.mp (h x (List.mem_cons_self _ _))
    obtain ⟨ys, hys⟩ :=
      Option.isSome_iff_exists.mp (ih (fun z hz => h z (List.mem_cons_of_mem _ hz)))
    rw [hy, hys]
    rfl

/-- A 200 outcome of `__valid_room_names` means every named room exists. -/
theorem valid_room_names_200 (t : Table) (sender msgData : Str) (rooms : List Str)
    (h : (valid_room_names t sender msgData rooms).code = 200) :
    ∀ r ∈ rooms, has_room t r = true := by
  induction rooms with
  | nil => exact fun r hr => absurd hr (List.not_mem_nil r)
  | cons r2 rest ih =>
    intro r hr
    by_cases h2 : has_room t r2 = true
    · rw [valid_room_names, if_pos h2] at h
      rcases List.mem_cons.mp hr with he | hm
      · exact he ▸ h2
      · exact ih h r hm
    · rw [valid_room_names, if_neg h2] at h
      exact absurd h (by simp [Status.code])

theorem join_room_conns (t : Table) (r u : Str) : (join_room t r u).2.conns = t.conns := by
  rw [join_room]
  split
  · rfl
  · split
    · rw [create_room]
      split <;> rfl
    · split <;> rfl

theorem leave_room_conns (t : Table) (r u : Str) : (leave_room t r u).2.conns = t.conns := by
  rw [leave_room]
  split
  · rfl
  · split
    · rfl
    · split <;> rfl

/-- A 200 join leaves the joined (or created) room present in the registry. -/
theorem join_room_200_has_room (t : Table) (r u : Str) :
    (join_room t r u).1.code = 200 → has_room (join_room t r u).2 r = true := by
  rw [join_room]
  cases alookup t.users u with
  | none =>
    intro h
    exact absurd h (by simp [Status.code])
  | some usr =>
    dsimp only
    cases alookup t.rooms r with
    | none =>
      dsimp only
      rw [create_room]
      by_cases hvf : validNameFormat r = false
      · rw [if_pos hvf]
        intro h
        exact absurd h (by simp [Status.code])
      · rw [if_neg hvf]
        intro _
        simp [has_room, alookup_dinsert_self]
    | some room =>
      dsimp only
      by_cases hm : u ∈ room.members
      · rw [if_pos hm]
        intro h
        exact absurd h (by simp [Status.code])
      · rw [if_neg hm]
        intro _
        simp [has_room, alookup_dinsert_self]

/-- A 200 leave keeps the room present in the registry (rooms are never
deleted). -/
theorem leave_room_200_has_room (t : Table) (r u : Str) :
    (leave_room t r u).1.code = 200 → has_room (leave_room t r u).2 r = true := by
  rw [leave_room]
  cases alookup t.users u with
  | none =>
    intro h
    exact absurd h (by simp [Status.code])
  | some usr =>
    dsimp only
    cases alookup t.rooms r with
    | none =>
      intro h
      exact absurd h (by simp [Status.code])
    | some room =>
      dsimp only
      by_cases hm : u ∈ room.members
      · rw [if_pos hm]
        intro _
        simp [has_room, alookup_dinsert_self]
      · rw [if_neg hm]
        intro h
        exact absurd h (by simp [Status.code])

/-- The two outcomes of `user_disconnection`. -/
theorem user_disconnection_cases (t : Table) (u : Str) :
    (user_disconnection t u
        = ((none, .disconnect 461 "Disconnect user not found".toList u [] none), t)
      ∧ (alookup t.users u).isSome = false) ∨
    (user_disconnection t u
        = ((some ((t.rooms.filter (fun p => decide (u ∈ p.2.members))).map Prod.fst),
            .base 200 "success".toList),
           { t with rooms := t.rooms.map (fun p => (p.1, (p.2.leave u).2)),
                    users := derase u t.users })) := by
  by_cases hu : (alookup t.users u).isSome = false
  · left
    refine ⟨?_, hu⟩
    rw [user_disconnection, clearDisconnectedUser, if_pos hu]
    dsimp only
    rw [if_neg (by simp [Status.code])]
  · right
    rw [user_disconnection, clearDisconnectedUser, if_neg hu]
    dsimp only
    rw [if_pos (by simp [Status.code])]

/-- C10: `list_room_users` returns the member set exactly when the queried
room exists and raises (`none`) otherwise; every dispatcher path that calls
it, and every path through the commands that could reach the raising
lookups, first establishes the needed precondition, so none of the modelled
`execute` functions can raise. -/
theorem c10_list_room_users_safe :
    (∀ (t : Table) (r : Str),
      (∃ room : Room, alookup t.rooms r = some room ∧
        list_room_users t r = some room.members) ∨
      (alookup t.rooms r = none ∧ list_room_users t r = none)) ∧
    (∀ (t : Table) (addr : Nat) (m : RoomsMsg), roomsMsgExecute t addr m ≠ none) ∧
    (∀ (t : Table) (addr : Nat) (r u : Str), joinExecute t addr r u ≠ none) ∧
    (∀ (t : Table) (addr : Nat) (r u : Str), leaveExecute t addr r u ≠ none) ∧
    (∀ (t : Table) (addr : Nat) (u : Str), disconnectExecute t addr u ≠ none) ∧
    (∀ (t : Table) (addr : Nat) (r : Str), listJoinedExecute t addr r ≠ none) := by
  have hlru : ∀ (t : Table) (r : Str), has_room t r = true →
      (list_room_users t r).isSome = true := by
    intro t r h
    rw [list_room_users]
    rw [has_room] at h
    obtain ⟨room, hm⟩ := Option.isSome_iff_exists.mp h
    rw [hm]
    rfl
  have hsender : ∀ (t : Table) (addr : Nat), ¬(has_addr t addr = false) →
      ∃ s, get_username_by_addr t addr = some s := by
    intro t addr ha
    rw [has_addr] at ha
    refine Option.isSome_iff_exists.mp ?_
    rw [get_username_by_addr]
    cases h : (alookup t.conns addr).isSome
    · exact absurd h ha
    · rfl
  refine ⟨?_, ?_, ?_, ?_, ?_, ?_⟩
  · intro t r
    cases hm : alookup t.rooms r with
    | none => exact Or.inr ⟨rfl, by rw [list_room_users, hm]; rfl⟩
    | some room => exact Or.inl ⟨room, rfl, by rw [list_room_users, hm]; rfl⟩
  · intro t addr m
    by_cases ha : has_addr t addr = false
    · rw [roomsMsgExecute, if_pos ha]
      exact Option.some_ne_none _
    · obtain ⟨sender, hst⟩ := hsender t addr ha
      rw [roomsMsgExecute, if_neg ha, hst]
      dsimp only
      by_cases hcnt : (m.rooms.length : Int) ≠ m.room_num
      · rw [if_pos hcnt]
        exact Option.some_ne_none _
      · rw [if_neg hcnt]
        by_cases h200 : (valid_room_names t sender m.message m.rooms).code = 200
        · rw [if_pos h200]
          have hrecv : (get_receivers t m.rooms).isSome = true := by
            rw [get_receivers]
            apply omapM_isSome
            intro r hr
            have hroom := valid_room_names_200 t sender m.message m.rooms h200 r
              (mem_pyDedup hr)
            obtain ⟨us, hus⟩ := Option.isSome_iff_exists.mp (hlru t r hroom)
            rw [hus]
            rfl
          obtain ⟨recvs, hrecvs⟩ := Option.isSome_iff_exists.mp hrecv
          rw [hrecvs]
          exact Option.some_ne_none _
        · rw [if_neg h200]
          exact Option.some_ne_none _
  · intro t addr r u
    by_cases ha : has_addr t addr = false
    · rw [joinExecute, if_pos ha]
      exact Option.some_ne_none _
    · rw [joinExecute, if_neg ha]
      rcases hj : join_room t r u with ⟨st, t1⟩
      dsimp only
      by_cases h200 : st.code = 200
      · rw [if_pos h200]
        have hroom : has_room t1 r = true := by
          have := join_room_200_has_room t r u (by rw [hj]; exact h200)
          rwa [hj] at this
        obtain ⟨recv, hrecv⟩ := Option.isSome_iff_exists.mp (hlru t1 r hroom)
        rw [hrecv]
        exact Option.some_ne_none _
      · rw [if_neg h200]
        by_cases h499 : st.code = 499
        · rw [if_pos h499]
          have hconns : t1.conns = t.conns := by
            have := join_room_conns t r u
            rwa [hj] at this
          obtain ⟨s, hs⟩ := hsender t addr ha
          rw [show get_username_by_addr t1 addr = some s from by
            rw [get_username_by_addr, hconns]
            exact hs]
          exact Option.some_ne_none _
        · rw [if_neg h499]
          exact Option.some_ne_none _
  · intro t addr r u
    by_cases ha : has_addr t addr = false
    · rw [leaveExecute, if_pos ha]
      exact Option.some_ne_none _
    · rw [leaveExecute, if_neg ha]
      rcases hl : leave_room t r u with ⟨st, t1⟩
      dsimp only
      by_cases h200 : st.code = 200
      · rw [if_pos h200]
        have hroom : has_room t1 r = true := by
          have := leave_room_200_has_room t r u (by rw [hl]; exact h200)
          rwa [hl] at this
        obtain ⟨recv, hrecv⟩ := Option.isSome_iff_exists.mp (hlru t1 r hroom)
        rw [hrecv]
        exact Option.some_ne_none _
      · rw [if_neg h200]
        have hconns : t1.conns = t.conns := by
          have := leave_room_conns t r u
          rwa [hl] at this
        obtain ⟨s, hs⟩ := hsender t addr ha
        rw [show get_username_by_addr t1 addr = some s from by
          rw [get_username_by_addr, hconns]
          exact hs]
        exact Option.some_ne_none _
  · intro t addr u
    by_cases ha : has_addr t addr = false
    · rw [disconnectExecute, if_pos ha]
      exact Option.some_ne_none _
    · rw [disconnectExecute, if_neg ha]
      rcases user_disconnection_cases t u with ⟨hd, _⟩ | hd
      · rw [hd]
        dsimp only
        rw [if_neg (by simp [Status.code])]
        exact Option.some_ne_none _
      · rw [hd]
        dsimp only
        rw [if_pos (by simp [Status.code])]
        have hconn : (alookup t.conns addr).isSome = true := by
          rw [has_addr] at ha
          cases h : (alookup t.conns addr).isSome
          · exact absurd h ha
          · rfl
        rw [clear_user_conn,
          show (alookup (Table.conns ⟨t.rooms.map (fun p => (p.1, (p.2.leave u).2)),
            derase u t.users, t.conns⟩) addr) = alookup t.conns addr from rfl,
          hconn, if_neg (fun h2 => Bool.noConfusion h2)]
        dsimp only
        rw [if_neg (by simp [Status.code])]
        have hnotify : (omapM
            (fun r2 => (list_room_users ⟨t.rooms.map (fun p => (p.1, (p.2.leave u).2)),
              derase u t.users, derase addr t.conns⟩ r2).map (fun us => (r2, us)))
            ((t.rooms.filter (fun p => decide (u ∈ p.2.members))).map Prod.fst)).isSome
            = true := by
          apply omapM_isSome
          intro r2 hr2
          obtain ⟨p, hp, hp1⟩ := List.mem_map.mp hr2
          have hproom : (alookup t.rooms p.1).isSome = true := by
            rw [alookup_isSome_iff_mem_akeys]
            exact List.mem_map.mpr ⟨p, List.mem_of_mem_filter hp, rfl⟩
          have hlook : (alookup (t.rooms.map (fun p => (p.1, (p.2.leave u).2))) r2).isSome
              = true := by
            rw [alookup_map_value t.rooms (fun rm => (rm.leave u).2) r2, Option.isSome_map']
            rw [← hp1]
            exact hproom
          rw [list_room_users]
          obtain ⟨room2, hroom2⟩ := Option.isSome_iff_exists.mp hlook
          simp only at hroom2 ⊢
          rw [hroom2]
          rfl
        obtain ⟨recvs, hrecvs⟩ := Option.isSome_iff_exists.mp hnotify
        simp only [Option.getD_some]
        rw [hrecvs]
        exact Option.some_ne_none _
  · intro t addr r
    by_cases ha : has_addr t addr = false
    · rw [listJoinedExecute, if_pos ha]
      exact Option.some_ne_none _
    · rw [listJoinedExecute, if_neg ha]
      obtain ⟨s, hs⟩ := hsender t addr ha
      by_cases hroom : has_room t r = true
      · obtain ⟨ul, hul⟩ := Option.isSome_iff_exists.mp (hlru t r hroom)
        rw [if_pos hroom, hul, Option.map_some', hs]
        exact Option.some_ne_none _
      · rw [if_neg hroom, hs]
        exact Option.some_ne_none _

/-- Witness for C10: the safety statement evaluated on the sample registry
for each modelled command. -/
theorem c10_list_room_users_safe_witness :
    roomsMsgExecute wTable 0 ⟨1, [wGhost], ['H', 'i']⟩ ≠ none ∧
    joinExecute wTable 0 wDevs wAlice ≠ none ∧
    leaveExecute wTable 0 wDevs wAlice ≠ none ∧
    disconnectExecute wTable 0 wAlice ≠ none ∧
    listJoinedExecute wTable 0 wDevs ≠ none :=
  ⟨c10_list_room_users_safe.2.1 wTable 0 ⟨1, [wGhost], ['H', 'i']⟩,
   c10_list_room_users_safe.2.2.1 wTable 0 wDevs wAlice,
   c10_list_room_users_safe.2.2.2.1 wTable 0 wDevs wAlice,
   c10_list_room_users_safe.2.2.2.2.1 wTable 0 wAlice,
   c10_list_room_users_safe.2.2.2.2.2 wTable 0 wDevs⟩

/-! The registry agreement invariant (C3). -/

/-- The agreement property the claim states: a username is registered iff
exactly one connection entry carries it as its value, and every room member
is a registered user. -/
def Agrees (t : Table) : Prop :=
  (∀ u : Str, (alookup t.users u).isSome = true ↔
    (t.conns.filter (fun q => decide (q.2 = u))).length = 1) ∧
  (∀ p ∈ t.rooms, ∀ mname ∈ Room.members p.2, (alookup t.users mname).isSome = true)

/-- The inductive registry invariant the code maintains: dict keys are
unique, each user entry is keyed by its own name, user and connection
entries point at each other one-to-one, room members are registered, and
member lists are duplicate-free. -/
structure TInv (t : Table) : Prop where
  users_nodup : (akeys t.users).Nodup
  conns_nodup : (akeys t.conns).Nodup
  users_name : ∀ p ∈ t.users, User.name p.2 = p.1
  users_conn : ∀ p ∈ t.users, alookup t.conns (User.addr p.2) = some p.1
  conns_user : ∀ q ∈ t.conns, ∃ usr, alookup t.users q.2 = some usr ∧ User.addr usr = q.1
  rooms_mem : ∀ p ∈ t.rooms, ∀ mname ∈ Room.members p.2,
    (alookup t.users mname).isSome = true
  rooms_nodup : ∀ p ∈ t.rooms, (Room.members p.2).Nodup

theorem filter_length_one {α : Type} (p : α → Bool) (l : List α) (x : α)
    (hnd : l.Nodup) (hx : x ∈ l) (hpx : p x = true)
    (huniq : ∀ y ∈ l, p y = true → y = x) : (l.filter p).length = 1 := by
  induction l with
  | nil => exact absurd hx (List.not_mem_nil x)
  | cons a rest ih =>
    rw [List.nodup_cons] at hnd
    rcases List.mem_cons.mp hx with he | hm
    · subst he
      rw [List.filter_cons_of_pos hpx, List.length_cons,
        show rest.filter p = [] from List.filter_eq_nil_iff.mpr
          (fun y hy hpy => hnd.1 ((huniq y (List.mem_cons_of_mem _ hy) hpy) ▸ hy))]
      rfl
    · have hax : ¬ p a = true := fun hp =>
        hnd.1 ((huniq a (List.mem_cons_self _ _) hp) ▸ hm)
      rw [List.filter_cons_of_neg hax]
      exact ih hnd.2 hm (fun y hy hpy => huniq y (List.mem_cons_of_mem _ hy) hpy)

theorem mem_dinsert {α β : Type} [DecidableEq α] {x : α × β} {k : α} {v : β}
    {l : List (α × β)} (h : x ∈ dinsert k v l) : x = (k, v) ∨ x ∈ l := by
  induction l with
  | nil => exact Or.inl (List.mem_singleton.mp h)
  | cons a rest ih =>
    rw [dinsert] at h
    by_cases ha : a.1 = k
    · obtain ⟨a1, a2⟩ := a
      rw [if_pos ha] at h
      rcases List.mem_cons.mp h with he | hm
      · exact Or.inl he
      · exact Or.inr (List.mem_cons_of_mem _ hm)
    · obtain ⟨a1, a2⟩ := a
      rw [if_neg ha] at h
      rcases List.mem_cons.mp h with he | hm
      · exact Or.inr (he ▸ List.mem_cons_self _ _)
      · rcases ih hm with h1 | h1
        · exact Or.inl h1
        · exact Or.inr (List.mem_cons_of_mem _ h1)

theorem dinsert_fresh {α β : Type} [DecidableEq α] {k : α} (v : β) {l : List (α × β)}
    (h : k ∉ akeys l) : dinsert k v l = l ++ [(k, v)] := by
  induction l with
  | nil => rfl
  | cons a rest ih =>
    obtain ⟨a1, a2⟩ := a
    rw [show akeys ((a1, a2) :: rest) = a1 :: akeys rest from rfl, List.mem_cons, not_or] at h
    rw [dinsert, if_neg (fun he => h.1 he.symm), ih h.2, List.cons_append]

theorem derase_sublist {α β : Type} [DecidableEq α] (k : α) (l : List (α × β)) :
    List.Sublist (derase k l) l := by
  induction l with
  | nil => exact List.Sublist.refl _
  | cons a rest ih =>
    obtain ⟨a1, a2⟩ := a
    rw [derase]
    by_cases ha : a1 = k
    · rw [if_pos ha]
      exact List.sublist_cons_self _ _
    · rw [if_neg ha]
      exact List.Sublist.cons₂ _ ih

theorem not_mem_akeys_derase {α β : Type} [DecidableEq α] (k : α) {l : List (α × β)}
    (hnd : (akeys l).Nodup) : k ∉ akeys (derase k l) := by
  intro hmem
  have := alookup_derase_self k hnd (l := l)
  rw [← alookup_isSome_iff_mem_akeys] at hmem
  rw [this] at hmem
  exact Bool.noConfusion hmem

/-- The registry invariant implies the claimed agreement of the three
maps. -/
theorem tinv_agrees (t : Table) (h : TInv t) : Agrees t := by
  refine ⟨?_, h.rooms_mem⟩
  intro u
  constructor
  · intro hu
    obtain ⟨usr, husr⟩ := Option.isSome_iff_exists.mp hu
    have hmem : (u, usr) ∈ t.users := mem_of_alookup_some husr
    have hconn : alookup t.conns (User.addr usr) = some u := h.users_conn (u, usr) hmem
    have hcmem : (User.addr usr, u) ∈ t.conns := mem_of_alookup_some hconn
    refine filter_length_one _ t.conns (User.addr usr, u)
      (List.Nodup.of_map _ h.conns_nodup) hcmem (by simp) ?_
    intro y hy hpy
    rw [decide_eq_true_eq] at hpy
    obtain ⟨usr2, husr2, haddr2⟩ := h.conns_user y hy
    rw [hpy] at husr2
    rw [husr] at husr2
    injection husr2 with husr2
    obtain ⟨y1, y2⟩ := y
    simp only at hpy haddr2
    rw [hpy, ← haddr2, husr2]
  · intro hc
    have hne : t.conns.filter (fun q => decide (q.2 = u)) ≠ [] := by
      intro he
      rw [he] at hc
      exact Nat.noConfusion hc
    obtain ⟨y, hy⟩ := List.exists_mem_of_ne_nil _ hne
    have hy2 := List.mem_filter.mp hy
    obtain ⟨usr2, husr2, _⟩ := h.conns_user y hy2.1
    rw [decide_eq_true_eq] at hy2
    rw [hy2.2] at husr2
    rw [husr2]
    rfl

theorem alookup_append_of_some {α β : Type} [DecidableEq α] {l : List (α × β)}
    (l2 : List (α × β)) {k : α} {v : β} (h : alookup l k = some v) :
    alookup (l ++ l2) k = some v := by
  induction l with
  | nil => exact Option.noConfusion h
  | cons a rest ih =>
    obtain ⟨a1, a2⟩ := a
    by_cases ha : a1 = k
    · rw [alookup, if_pos ha] at h
      rw [List.cons_append, alookup, if_pos ha]
      exact h
    · rw [alookup, if_neg ha] at h
      rw [List.cons_append, alookup, if_neg ha]
      exact ih h

theorem alookup_append_of_none {α β : Type} [DecidableEq α] {l : List (α × β)}
    (l2 : List (α × β)) {k : α} (h : alookup l k = none) :
    alookup (l ++ l2) k = alookup l2 k := by
  induction l with
  | nil => rfl
  | cons a rest ih =>
    obtain ⟨a1, a2⟩ := a
    by_cases ha : a1 = k
    · rw [alookup, if_pos ha] at h
      exact Option.noConfusion h
    · rw [alookup, if_neg ha] at h
      rw [List.cons_append, alookup, if_neg ha]
      exact ih h

theorem akeys_append {α β : Type} (l l2 : List (α × β)) :
    akeys (l ++ l2) = akeys l ++ akeys l2 := List.map_append _ _ _

/-- A clean registration scan rejects every stored user's address and
name. -/
theorem regScan_200 (username : Str) (addr : Nat) (l : List (Str × User))
    (h : (regScan username addr l).code = 200) :
    ∀ p ∈ l, User.addr p.2 ≠ addr ∧ User.name p.2 ≠ username := by
  induction l with
  | nil => exact fun p hp => absurd hp (List.not_mem_nil p)
  | cons a rest ih =>
    obtain ⟨k, usr⟩ := a
    intro p hp
    by_cases ha : usr.addr = addr
    · rw [regScan, if_pos ha] at h
      exact absurd h (by simp [Status.code])
    · by_cases hn : usr.name = username
      · rw [regScan, if_neg ha, if_pos hn] at h
        exact absurd h (by simp [Status.code])
      · rw [regScan, if_neg ha, if_neg hn] at h
        rcases List.mem_cons.mp hp with he | hm
        · rw [he]
          exact ⟨ha, hn⟩
        · exact ih h p hm

theorem regScan_codes (username : Str) (addr : Nat) (l : List (Str × User)) :
    (regScan username addr l).code = 200 ∨ (regScan username addr l).code = 401 ∨
    (regScan username addr l).code = 402 := by
  induction l with
  | nil => exact Or.inl rfl
  | cons a rest ih =>
    obtain ⟨k, usr⟩ := a
    by_cases ha : usr.addr = addr
    · rw [regScan, if_pos ha]
      exact Or.inr (Or.inl rfl)
    · by_cases hn : usr.name = username
      · rw [regScan, if_neg ha, if_pos hn]
        exact Or.inr (Or.inr rfl)
      · rw [regScan, if_neg ha, if_neg hn]
        exact ih

/-- `user_registration` preserves the registry invariant. -/
theorem tinv_registration (t : Table) (h : TInv t) (username : Str) (addr : Nat) :
    TInv (user_registration t username addr).2 := by
  rw [user_registration]

  by_cases hcode : (valid_registration t username addr).code = 401 ∨
      (valid_registration t username addr).code = 402 ∨
      (valid_registration t username addr).code = 403
  · rw [if_pos hcode]
    exact h
  · rw [if_neg hcode]
    have h200 : (regScan username addr t.users).code = 200 := by
      rw [valid_registration] at hcode
      by_cases hvf : validNameFormat username = false
      · rw [if_pos hvf] at hcode
        exact absurd (Or.inr (Or.inr (by simp [Status.code]))) hcode
      · rw [if_neg hvf] at hcode
        rcases regScan_codes username addr t.users with hc | hc | hc
        · exact hc
        · exact absurd (Or.inl hc) hcode
        · exact absurd (Or.inr (Or.inl hc)) hcode
    have hscan := regScan_200 username addr t.users h200
    have hufresh : username ∉ akeys t.users := by
      intro hmem
      rw [← alookup_isSome_iff_mem_akeys] at hmem
      obtain ⟨usr, husr⟩ := Option.isSome_iff_exists.mp hmem
      have hpmem := mem_of_alookup_some husr
      exact (hscan (username, usr) hpmem).2 (h.users_name (username, usr) hpmem)
    have hafresh : addr ∉ akeys t.conns := by
      intro hmem
      rw [← alookup_isSome_iff_mem_akeys] at hmem
      obtain ⟨nm, hnm⟩ := Option.isSome_iff_exists.mp hmem
      obtain ⟨usr2, husr2, haddr2⟩ := h.conns_user (addr, nm) (mem_of_alookup_some hnm)
      exact (hscan (nm, usr2) (mem_of_alookup_some husr2)).1 haddr2
    rw [dinsert_fresh _ hufresh, dinsert_fresh _ hafresh]
    dsimp only
    refine ⟨?_, ?_, ?_, ?_, ?_, ?_, ?_⟩
    · rw [akeys_append]
      simp only [List.nodup_append, akeys]
      refine ⟨h.users_nodup, by simp, ?_⟩
      intro x hx
      simp only [List.map_cons, List.map_nil, List.mem_singleton]
      intro hx2
      rw [hx2] at hx
      exact hufresh hx
    · rw [akeys_append]
      simp only [List.nodup_append, akeys]
      refine ⟨h.conns_nodup, by simp, ?_⟩
      intro x hx
      simp only [List.map_cons, List.map_nil, List.mem_singleton]
      intro hx2
      rw [hx2] at hx
      exact hafresh hx
    · intro p hp
      rcases List.mem_append.mp hp with hm | hm
      · exact h.users_name p hm
      · rw [List.mem_singleton.mp hm]
        rfl
    · intro p hp
      rcases List.mem_append.mp hp with hm | hm
      · exact alookup_append_of_some _ (h.users_conn p hm)
      · rw [List.mem_singleton.mp hm]
        dsimp only
        rw [show User.addr (mkUser username addr) = addr from rfl]
        rw [alookup_append_of_none _ (alookup_eq_none_of_not_mem hafresh)]
        rw [alookup, if_pos rfl]
    · intro q hq
      rcases List.mem_append.mp hq with hm | hm
      · obtain ⟨usr2, husr2, haddr2⟩ := h.conns_user q hm
        exact ⟨usr2, alookup_append_of_some _ husr2, haddr2⟩
      · rw [List.mem_singleton.mp hm]
        refine ⟨mkUser username addr, ?_, rfl⟩
        rw [alookup_append_of_none _ (alookup_eq_none_of_not_mem hufresh)]
        rw [alookup, if_pos rfl]
    · intro p hp mname hmname
      obtain ⟨usr2, husr2⟩ :=
        Option.isSome_iff_exists.mp (h.rooms_mem p hp mname hmname)
      rw [alookup_append_of_some _ husr2]
      rfl
    · exact h.rooms_nodup

/-- `join_room` preserves the registry invariant. -/
theorem tinv_join (t : Table) (h : TInv t) (roomName username : Str) :
    TInv (join_room t roomName username).2 := by
  rw [join_room]
  cases hu : alookup t.users username with
  | none => exact h
  | some usr =>
    dsimp only
    have humem := mem_of_alookup_some hu
    have hname : User.name usr = username := h.users_name (username, usr) humem
    cases hr : alookup t.rooms roomName with
    | none =>
      dsimp only
      rw [create_room]
      by_cases hvf : validNameFormat roomName = false
      · rw [if_pos hvf]
        exact h
      · rw [if_neg hvf]
        refine ⟨h.users_nodup, h.conns_nodup, h.users_name, h.users_conn, h.conns_user,
          ?_, ?_⟩
        · intro p hp mname hmname
          rcases mem_dinsert hp with he | hm
          · rw [he] at hmname
            rw [List.mem_singleton.mp hmname, hname, hu]
            rfl
          · exact h.rooms_mem p hm mname hmname
        · intro p hp
          rcases mem_dinsert hp with he | hm
          · rw [he]
            exact List.nodup_singleton _
          · exact h.rooms_nodup p hm
    | some room =>
      dsimp only
      have hrmem := mem_of_alookup_some hr
      by_cases hm : username ∈ room.members
      · rw [if_pos hm]
        exact h
      · rw [if_neg hm]
        refine ⟨h.users_nodup, h.conns_nodup, h.users_name, h.users_conn, h.conns_user,
          ?_, ?_⟩
        · intro p hp mname hmname
          rcases mem_dinsert hp with he | hm2
          · rw [he] at hmname
            rw [Room.join, if_neg hm] at hmname
            dsimp only at hmname
            rcases List.mem_append.mp hmname with h1 | h1
            · exact h.rooms_mem (roomName, room) hrmem mname h1
            · rw [List.mem_singleton.mp h1, hu]
              rfl
          · exact h.rooms_mem p hm2 mname hmname
        · intro p hp
          rcases mem_dinsert hp with he | hm2
          · rw [he, Room.join, if_neg hm]
            dsimp only
            rw [List.nodup_append]
            exact ⟨h.rooms_nodup (roomName, room) hrmem, List.nodup_singleton _,
              fun x hx => by
                rw [List.mem_singleton]
                intro hx2
                rw [hx2] at hx
                exact hm hx⟩
          · exact h.rooms_nodup p hm2

/-- `leave_room` preserves the registry invariant. -/
theorem tinv_leave (t : Table) (h : TInv t) (roomName username : Str) :
    TInv (leave_room t roomName username).2 := by
  rw [leave_room]
  cases hu : alookup t.users username with
  | none => exact h
  | some usr =>
    dsimp only
    cases hr : alookup t.rooms roomName with
    | none => exact h
    | some room =>
      dsimp only
      have hrmem := mem_of_alookup_some hr
      by_cases hm : username ∈ room.members
      · rw [if_pos hm]
        refine ⟨h.users_nodup, h.conns_nodup, h.users_name, h.users_conn, h.conns_user,
          ?_, ?_⟩
        · intro p hp mname hmname
          rcases mem_dinsert hp with he | hm2
          · rw [he] at hmname
            exact h.rooms_mem (roomName, room) hrmem mname
              (List.mem_of_mem_erase hmname)
          · exact h.rooms_mem p hm2 mname hmname
        · intro p hp
          rcases mem_dinsert hp with he | hm2
          · rw [he]
            exact (h.rooms_nodup (roomName, room) hrmem).erase _
          · exact h.rooms_nodup p hm2
      · rw [if_neg hm]
        exact h

/-- `user_disconnection` of a registered user followed by `clear_user_conn`
of that user's address preserves the registry invariant. -/
theorem tinv_disc_clear (t : Table) (h : TInv t) (username : Str) (usr : User)
    (hu : alookup t.users username = some usr) :
    TInv (clear_user_conn (user_disconnection t username).2 usr.addr).2 := by
  have humem := mem_of_alookup_some hu
  have hconnu : alookup t.conns usr.addr = some username := h.users_conn (username, usr) humem
  rcases user_disconnection_cases t username with ⟨_, hno⟩ | hd
  · rw [hu] at hno
    exact Bool.noConfusion hno
  · rw [hd]
    dsimp only
    rw [clear_user_conn,
      show (alookup (Table.conns ⟨t.rooms.map (fun p => (p.1, (p.2.leave username).2)),
        derase username t.users, t.conns⟩) usr.addr) = alookup t.conns usr.addr from rfl,
      hconnu, if_neg (fun h2 => Bool.noConfusion h2)]
    dsimp only
    refine ⟨?_, ?_, ?_, ?_, ?_, ?_, ?_⟩
    · exact ((derase_sublist username t.users).map Prod.fst).nodup h.users_nodup
    · exact ((derase_sublist usr.addr t.conns).map Prod.fst).nodup h.conns_nodup
    · exact fun p hp => h.users_name p ((derase_sublist username t.users).subset hp)
    · intro p hp
      have hpold := (derase_sublist username t.users).subset hp
      have hpc := h.users_conn p hpold
      have hne : User.addr p.2 ≠ usr.addr := by
        intro he
        rw [he, hconnu] at hpc
        injection hpc with hpc
        have : p.1 ∈ akeys (derase username t.users) :=
          List.mem_map.mpr ⟨p, hp, rfl⟩
        rw [← hpc] at this
        exact not_mem_akeys_derase username h.users_nodup this
      rw [alookup_derase_ne _ hne]
      exact hpc
    · intro q hq
      have hqold := (derase_sublist usr.addr t.conns).subset hq
      obtain ⟨usr2, husr2, haddr2⟩ := h.conns_user q hqold
      have hne : q.2 ≠ username := by
        intro he
        rw [he, hu] at husr2
        injection husr2 with husr2
        have : q.1 ∈ akeys (derase usr.addr t.conns) :=
          List.mem_map.mpr ⟨q, hq, rfl⟩
        rw [← haddr2, ← husr2] at this
        exact not_mem_akeys_derase usr.addr h.conns_nodup this
      refine ⟨usr2, ?_, haddr2⟩
      rw [alookup_derase_ne _ hne]
      exact husr2
    · intro p hp mname hmname
      obtain ⟨p0, hp0, hp0e⟩ := List.mem_map.mp hp
      rw [← hp0e] at hmname
      dsimp only at hmname
      have hnodup0 := h.rooms_nodup p0 hp0
      have hmm : mname ∈ Room.members p0.2 ∧ mname ≠ username := by
        rw [Room.leave] at hmname
        by_cases hmem : username ∈ Room.members p0.2
        · rw [if_pos hmem] at hmname
          dsimp only at hmname
          exact ⟨List.mem_of_mem_erase hmname,
            ((hnodup0.mem_erase_iff).mp hmname).1⟩
        · rw [if_neg hmem] at hmname
          exact ⟨hmname, fun he => hmem (he ▸ hmname)⟩
      rw [alookup_derase_ne _ hmm.2]
      exact h.rooms_mem p0 hp0 mname hmm.1
    · intro p hp
      obtain ⟨p0, hp0, hp0e⟩ := List.mem_map.mp hp
      rw [← hp0e]
      dsimp only
      rw [Room.leave]
      by_cases hmem : username ∈ Room.members p0.2
      · rw [if_pos hmem]
        exact (h.rooms_nodup p0 hp0).erase _
      · rw [if_neg hmem]
        exact h.rooms_nodup p0 hp0

/-- C3 counterexample: register alice into an empty registry, then run
`user_disconnection` alone (as its docstring says, it does not remove the
`conns` entry); afterwards exactly one connection entry still carries
alice's name while alice is no longer a key of `users`, so the three maps
do not agree. -/
theorem c3_disconnection_breaks_agreement_cex :
    ¬ Agrees (user_disconnection (user_registration ⟨[], [], []⟩ wAlice 0).2 wAlice).2 := by
  intro hA
  have h1 := (hA.1 wAlice).mpr (by decide)
  exact absurd h1 (by decide)

/-- C3 amended: in every registry state satisfying the code-maintained
invariant, the three maps agree as claimed; `user_registration`,
`join_room` and `leave_room` each preserve the invariant (hence agreement
after them), and so does `user_disconnection` of a registered user when it
is followed by `clear_user_conn` of that user's address — the pair the
disconnect command always executes together.  After `user_disconnection`
alone the maps disagree (the `conns` entry survives by design). -/
theorem c3_registry_agreement (t : Table) (h : TInv t) :
    Agrees t ∧
    (∀ (username : Str) (addr : Nat),
      TInv (user_registration t username addr).2 ∧
      Agrees (user_registration t username addr).2) ∧
    (∀ roomName username : Str,
      TInv (join_room t roomName username).2 ∧ Agrees (join_room t roomName username).2) ∧
    (∀ roomName username : Str,
      TInv (leave_room t roomName username).2 ∧
      Agrees (leave_room t roomName username).2) ∧
    (∀ (username : Str) (usr : User), alookup t.users username = some usr →
      TInv (clear_user_conn (user_disconnection t username).2 usr.addr).2 ∧
      Agrees (clear_user_conn (user_disconnection t username).2 usr.addr).2) := by
  refine ⟨tinv_agrees t h, ?_, ?_, ?_, ?_⟩
  · intro username addr
    have h2 := tinv_registration t h username addr
    exact ⟨h2, tinv_agrees _ h2⟩
  · intro roomName username
    have h2 := tinv_join t h roomName username
    exact ⟨h2, tinv_agrees _ h2⟩
  · intro roomName username
    have h2 := tinv_leave t h roomName username
    exact ⟨h2, tinv_agrees _ h2⟩
  · intro username usr hu
    have h2 := tinv_disc_clear t h username usr hu
    exact ⟨h2, tinv_agrees _ h2⟩

/-- Witness for C3: the sample registry satisfies the invariant, and the
amended statement is instantiated on it with alice disconnecting. -/
theorem c3_registry_agreement_witness :
    Agrees wTable ∧
    (TInv (clear_user_conn (user_disconnection wTable wAlice).2
        (User.addr (mkUser wAlice 0))).2 ∧
      Agrees (clear_user_conn (user_disconnection wTable wAlice).2
        (User.addr (mkUser wAlice 0))).2) :=
  have hinv : TInv wTable := by
    refine ⟨?_, ?_, ?_, ?_, ?_, ?_, ?_⟩ <;> decide
  ⟨(c3_registry_agreement wTable hinv).1,
   (c3_registry_agreement wTable hinv).2.2.2.2 wAlice (mkUser wAlice 0) (by decide)⟩

end IRC
